import Mathlib

/-!
Verification of the SoundAware conversational-awareness backend.

The definitions below are a shallow embedding of the TypeScript sources:
  - `Dispatcher` embeds `VolumeActionDispatcherImpl`
    (backend/src/services/ConfigurationManager.ts);
  - `CB` embeds `CircuitBreaker` (backend/src/services/ErrorHandler.ts);
  - `VP` embeds `VoiceProfileServiceImpl` (backend/src/services/VoiceProfileService.ts);
  - `Cfg` embeds `ConfigurationModel` (backend/src/models/index.ts);
  - `AE` embeds `AttentionDetectionEngineImpl` (backend/src/services/WebSocketManager.ts).

Numeric values (JS numbers / Float32Array entries) are modelled as exact
rationals or reals; timer scheduling is modelled by an explicit count of
scheduled, not-yet-fired timeout callbacks together with the nullable
`silenceTimer` field.
-/

namespace SoundAware

namespace Dispatcher

inductive AttentionDecision where
  | IGNORE
  | PROBABLY_TO_ME
  | DEFINITELY_TO_ME
  deriving DecidableEq, Repr

inductive VolumeActionType where
  | LOWER_VOLUME
  | RESTORE_VOLUME
  deriving DecidableEq, Repr

/-- `VolumeActionModel` (timestamp omitted: it is wall-clock metadata). -/
structure VolumeAction where
  type : VolumeActionType
  triggerReason : AttentionDecision
  confidence : ℚ
  deriving DecidableEq, Repr

inductive VolState where
  | normal
  | lowered
  deriving DecidableEq, Repr

/-- Dispatcher state.  `silenceTimerSet` is whether the `silenceTimer` field is
non-null; `pendingTimeouts` counts scheduled `setTimeout` callbacks that have
neither fired nor been cancelled (an orphaned timeout would keep running even
after the field is overwritten, so the count is tracked separately). -/
structure DState where
  currentVolumeState : VolState
  silenceTimerSet : Bool
  pendingTimeouts : ℕ
  deriving DecidableEq, Repr

def initState : DState := ⟨.normal, false, 0⟩

/-- `stopSilenceTimer`: clears (cancels) the tracked timeout if the field is set. -/
def stopSilenceTimer (st : DState) : DState :=
  if st.silenceTimerSet then
    { st with silenceTimerSet := false, pendingTimeouts := st.pendingTimeouts - 1 }
  else st

/-- `startSilenceTimer`: clears any existing timer, then schedules a new timeout. -/
def startSilenceTimer (st : DState) : DState :=
  let st1 := stopSilenceTimer st
  { st1 with silenceTimerSet := true, pendingTimeouts := st1.pendingTimeouts + 1 }

/-- `resetSilenceTimer`: restarts the timer only when one is currently set. -/
def resetSilenceTimer (st : DState) : DState :=
  if st.silenceTimerSet then startSilenceTimer (stopSilenceTimer st) else st

def createLowerVolumeAction (decision : AttentionDecision) (confidence : ℚ) : VolumeAction :=
  ⟨.LOWER_VOLUME, decision, confidence⟩

def createRestoreVolumeAction : VolumeAction :=
  ⟨.RESTORE_VOLUME, .IGNORE, 1⟩

/-- `sendAction`: only sends if the state is changing (debounce), returning the
new state together with the list of emitted actions. -/
def sendAction (st : DState) (a : VolumeAction) : DState × List VolumeAction :=
  if a.type = .LOWER_VOLUME ∧ st.currentVolumeState = .lowered then (st, [])
  else if a.type = .RESTORE_VOLUME ∧ st.currentVolumeState = .normal then (st, [])
  else
    ({ st with currentVolumeState :=
        if a.type = .LOWER_VOLUME then .lowered else .normal }, [a])

/-- `dispatchAction(decision, sensitivity)`. -/
def dispatchAction (st : DState) (decision : AttentionDecision) (sensitivity : ℚ) :
    DState × List VolumeAction :=
  match decision with
  | .DEFINITELY_TO_ME =>
      let st1 := resetSilenceTimer st
      let p := sendAction st1 (createLowerVolumeAction .DEFINITELY_TO_ME 0.95)
      (startSilenceTimer p.1, p.2)
  | .PROBABLY_TO_ME =>
      if 0.5 < sensitivity then
        let st1 := resetSilenceTimer st
        let p := sendAction st1 (createLowerVolumeAction .PROBABLY_TO_ME 0.7)
        (startSilenceTimer p.1, p.2)
      else (st, [])
  | .IGNORE =>
      if st.currentVolumeState = .lowered ∧ st.silenceTimerSet = false then
        (startSilenceTimer st, [])
      else (st, [])

/-- `forceRestoreVolume`. -/
def forceRestoreVolume (st : DState) : DState × List VolumeAction :=
  let st1 := stopSilenceTimer st
  if st1.currentVolumeState = .lowered then sendAction st1 createRestoreVolumeAction
  else (st1, [])

/-- `forceLowerVolume`. -/
def forceLowerVolume (st : DState) : DState × List VolumeAction :=
  let st1 := stopSilenceTimer st
  let p := sendAction st1 (createLowerVolumeAction .DEFINITELY_TO_ME 1)
  (startSilenceTimer p.1, p.2)

/-- `onSilenceTimeout`: the timer callback; it can only run while a scheduled
timeout is pending.  (When none is pending the step is a no-op, since no such
event can occur.) -/
def onSilenceTimeout (st : DState) : DState × List VolumeAction :=
  if st.pendingTimeouts = 0 then (st, [])
  else
    let st1 : DState :=
      { st with silenceTimerSet := false, pendingTimeouts := st.pendingTimeouts - 1 }
    if st1.currentVolumeState = .lowered then sendAction st1 createRestoreVolumeAction
    else (st1, [])

/-- The events that can drive the dispatcher. -/
inductive DStep where
  | dispatch (decision : AttentionDecision) (sensitivity : ℚ)
  | forceRestore
  | forceLower
  | timerExpiry

def applyStep : DStep → DState → DState × List VolumeAction
  | .dispatch d s, st => dispatchAction st d s
  | .forceRestore, st => forceRestoreVolume st
  | .forceLower, st => forceLowerVolume st
  | .timerExpiry, st => onSilenceTimeout st

/-- Dispatcher states reachable from the initial state. -/
inductive Reachable : DState → Prop where
  | init : Reachable initState
  | step (s : DState) (st : DStep) : Reachable s → Reachable (applyStep st s).1

/-- The at-most-one-timer discipline: at most one scheduled timeout is live,
and the `silenceTimer` field is set exactly when one is. -/
def TimerInv (st : DState) : Prop :=
  st.pendingTimeouts ≤ 1 ∧ (st.silenceTimerSet = true ↔ st.pendingTimeouts = 1)

theorem timerInv_stop {st : DState} (h : TimerInv st) : TimerInv (stopSilenceTimer st) := by
  obtain ⟨v, ts, n⟩ := st
  obtain ⟨h1, h2⟩ := h
  simp only [TimerInv] at *
  unfold stopSilenceTimer
  cases ts <;> simp_all

theorem stop_silenceTimerSet (st : DState) : (stopSilenceTimer st).silenceTimerSet = false := by
  obtain ⟨v, ts, n⟩ := st
  unfold stopSilenceTimer
  cases ts <;> simp

theorem timerInv_start {st : DState} (h : TimerInv st) : TimerInv (startSilenceTimer st) := by
  have h' := timerInv_stop h
  have hf := stop_silenceTimerSet st
  obtain ⟨h1, h2⟩ := h'
  rw [hf] at h2
  simp at h2
  have h0 : (stopSilenceTimer st).pendingTimeouts = 0 := by omega
  unfold startSilenceTimer
  constructor <;> simp [h0]

theorem timerInv_reset {st : DState} (h : TimerInv st) : TimerInv (resetSilenceTimer st) := by
  unfold resetSilenceTimer
  by_cases hs : st.silenceTimerSet <;> simp [hs]
  · exact timerInv_start (timerInv_stop h)
  · exact h

theorem timerInv_sendAction {st : DState} (a : VolumeAction) (h : TimerInv st) :
    TimerInv (sendAction st a).1 := by
  unfold sendAction
  split
  · exact h
  · split
    · exact h
    · exact h

theorem timerInv_applyStep {st : DState} (step : DStep) (h : TimerInv st) :
    TimerInv (applyStep step st).1 := by
  cases step with
  | dispatch d s =>
      cases d with
      | DEFINITELY_TO_ME =>
          exact timerInv_start (timerInv_sendAction _ (timerInv_reset h))
      | PROBABLY_TO_ME =>
          simp only [applyStep, dispatchAction]
          split
          · exact timerInv_start (timerInv_sendAction _ (timerInv_reset h))
          · exact h
      | IGNORE =>
          simp only [applyStep, dispatchAction]
          split
          · exact timerInv_start h
          · exact h
  | forceRestore =>
      simp only [applyStep, forceRestoreVolume]
      split
      · exact timerInv_sendAction _ (timerInv_stop h)
      · exact timerInv_stop h
  | forceLower =>
      exact timerInv_start (timerInv_sendAction _ (timerInv_stop h))
  | timerExpiry =>
      obtain ⟨h1, h2⟩ := h
      simp only [applyStep, onSilenceTimeout]
      split
      · exact ⟨h1, h2⟩
      · split
        · apply timerInv_sendAction
          constructor <;> simp <;> omega
        · constructor <;> simp <;> omega

/-- Any action emitted by `sendAction` is the given one, and a restore is only
emitted from the lowered state. -/
theorem sendAction_restore_lowered {st : DState} {a b : VolumeAction}
    (hb : b ∈ (sendAction st a).2) (hr : b.type = .RESTORE_VOLUME) :
    st.currentVolumeState = .lowered := by
  unfold sendAction at hb
  split at hb
  · simp at hb
  · split at hb
    · simp at hb
    · next h1 h2 =>
        have hba : b = a := by simpa using hb
        rw [hba] at hr
        cases hc : st.currentVolumeState with
        | lowered => rfl
        | normal => exact absurd ⟨hr, hc⟩ h2

theorem restore_needs_lowered (st : DState) (step : DStep) :
    ∀ a ∈ (applyStep step st).2, a.type = .RESTORE_VOLUME →
      st.currentVolumeState = .lowered := by
  intro a ha hr
  cases step with
  | dispatch d s =>
      cases d with
      | DEFINITELY_TO_ME =>
          simp only [applyStep, dispatchAction] at ha
          have := sendAction_restore_lowered ha hr
          unfold resetSilenceTimer startSilenceTimer stopSilenceTimer at this
          split at this <;> simp_all
      | PROBABLY_TO_ME =>
          simp only [applyStep, dispatchAction] at ha
          split at ha
          · have := sendAction_restore_lowered ha hr
            unfold resetSilenceTimer startSilenceTimer stopSilenceTimer at this
            split at this <;> simp_all
          · simp at ha
      | IGNORE =>
          simp only [applyStep, dispatchAction] at ha
          split at ha <;> simp at ha
  | forceRestore =>
      simp only [applyStep, forceRestoreVolume] at ha
      split at ha
      · have := sendAction_restore_lowered ha hr
        unfold stopSilenceTimer at this
        split at this <;> simp_all
      · simp at ha
  | forceLower =>
      simp only [applyStep, forceLowerVolume] at ha
      have := sendAction_restore_lowered ha hr
      unfold stopSilenceTimer at this
      split at this <;> simp_all
  | timerExpiry =>
      simp only [applyStep, onSilenceTimeout] at ha
      split at ha
      · simp at ha
      · split at ha
        · have := sendAction_restore_lowered ha hr
          simp_all
        · simp at ha

theorem lower_in_normal_starts_timer (st : DState) (step : DStep) :
    ∀ a ∈ (applyStep step st).2, a.type = .LOWER_VOLUME →
      st.currentVolumeState = .normal →
      (applyStep step st).1.silenceTimerSet = true := by
  intro a ha hl hn
  cases step with
  | dispatch d s =>
      cases d with
      | DEFINITELY_TO_ME => simp [applyStep, dispatchAction, startSilenceTimer]
      | PROBABLY_TO_ME =>
          simp only [applyStep, dispatchAction]
          split
          · simp [startSilenceTimer]
          · simp only [applyStep, dispatchAction] at ha
            split at ha <;> simp_all
      | IGNORE =>
          simp only [applyStep, dispatchAction] at ha
          split at ha <;> simp at ha
  | forceRestore =>
      simp only [applyStep, forceRestoreVolume] at ha ⊢
      split at ha
      · next hlow =>
          unfold sendAction at ha
          split at ha
          · simp at ha
          · split at ha
            · simp at ha
            · simp at ha
              subst ha
              simp_all [sendAction]
      · simp at ha
  | forceLower => simp [applyStep, forceLowerVolume, startSilenceTimer]
  | timerExpiry =>
      simp only [applyStep, onSilenceTimeout] at ha
      split at ha
      · simp at ha
      · split at ha
        · unfold sendAction at ha
          split at ha
          · simp at ha
          · split at ha
            · simp at ha
            · simp at ha; subst ha; cases hl
        · simp at ha

/-- Claim C2: in every reachable dispatcher state, at most one silence timer
is pending (and the `silenceTimer` field tracks it exactly); any step that
emits `RESTORE_VOLUME` does so from the lowered state; and any step that emits
`LOWER_VOLUME` from the normal state leaves a silence timer set. -/
theorem dispatcher_invariants (st : DState) (h : Reachable st) :
    TimerInv st
    ∧ (∀ step : DStep, ∀ a ∈ (applyStep step st).2,
        a.type = .RESTORE_VOLUME → st.currentVolumeState = .lowered)
    ∧ (∀ step : DStep, ∀ a ∈ (applyStep step st).2,
        a.type = .LOWER_VOLUME → st.currentVolumeState = .normal →
        (applyStep step st).1.silenceTimerSet = true) := by
  refine ⟨?_, restore_needs_lowered st, lower_in_normal_starts_timer st⟩
  induction h with
  | init => exact ⟨by decide, by decide⟩
  | step s stp hs ih => exact timerInv_applyStep stp ih

theorem dispatcher_invariants_witness :
    TimerInv initState
    ∧ (∀ step : DStep, ∀ a ∈ (applyStep step initState).2,
        a.type = .RESTORE_VOLUME → initState.currentVolumeState = .lowered)
    ∧ (∀ step : DStep, ∀ a ∈ (applyStep step initState).2,
        a.type = .LOWER_VOLUME → initState.currentVolumeState = .normal →
        (applyStep step initState).1.silenceTimerSet = true) :=
  dispatcher_invariants initState Reachable.init

/-- Claim C1: for every dispatcher state and sensitivity `s ∈ [0,1]`,
dispatching `PROBABLY_TO_ME` emits a `LOWER_VOLUME` command iff `s > 0.5` and
the volume state is normal; when `s ≤ 0.5` nothing is emitted and the state
(including the pending silence timer) is unchanged. -/
theorem dispatch_probably_iff (st : DState) (s : ℚ) (_h0 : 0 ≤ s) (_h1 : s ≤ 1) :
    ((∃ a ∈ (dispatchAction st .PROBABLY_TO_ME s).2, a.type = .LOWER_VOLUME)
      ↔ (0.5 < s ∧ st.currentVolumeState = .normal))
    ∧ (s ≤ 0.5 → dispatchAction st .PROBABLY_TO_ME s = (st, [])) := by
  constructor
  · constructor
    · intro ⟨a, ha, hl⟩
      simp only [dispatchAction] at ha
      split at ha
      · next hgt =>
          refine ⟨hgt, ?_⟩
          by_contra hn
          have hv : st.currentVolumeState = .lowered := by
            cases h : st.currentVolumeState
            · exact absurd h hn
            · rfl
          have hv1 : (resetSilenceTimer st).currentVolumeState = .lowered := by
            unfold resetSilenceTimer startSilenceTimer stopSilenceTimer
            split <;> simp [hv]
          simp [sendAction, createLowerVolumeAction, hv1] at ha
      · simp at ha
    · intro ⟨hgt, hn⟩
      have hv : (resetSilenceTimer st).currentVolumeState = .normal := by
        unfold resetSilenceTimer startSilenceTimer stopSilenceTimer
        split <;> simp [hn]
      simp only [dispatchAction, if_pos hgt]
      refine ⟨createLowerVolumeAction .PROBABLY_TO_ME 0.7, ?_, rfl⟩
      simp [sendAction, createLowerVolumeAction, hv]
  · intro hle
    have hnl : ¬ ((0.5 : ℚ) < s) := not_lt.mpr hle
    simp [dispatchAction, hnl]

theorem dispatch_probably_iff_witness :
    ((∃ a ∈ (dispatchAction initState .PROBABLY_TO_ME 0.75).2, a.type = .LOWER_VOLUME)
      ↔ ((0.5 : ℚ) < 0.75 ∧ initState.currentVolumeState = .normal))
    ∧ ((0.75 : ℚ) ≤ 0.5 → dispatchAction initState .PROBABLY_TO_ME 0.75 = (initState, [])) :=
  dispatch_probably_iff initState 0.75 (by norm_num) (by norm_num)

/-- Claim C3, code behavior at the failing input: when the dispatcher is
already in the lowered state, `forceLowerVolume` cancels the timer and starts
a fresh one but emits NO command (`sendAction` debounces), contradicting the
spec's "emits DIM unconditionally". -/
theorem forceLowerVolume_when_lowered_emits_nothing :
    (forceLowerVolume (forceLowerVolume initState).1).2 = []
    ∧ (forceLowerVolume (forceLowerVolume initState).1).1.silenceTimerSet = true
    ∧ (forceLowerVolume initState).1.currentVolumeState = .lowered := by
  decide

end Dispatcher

namespace CB

inductive CircuitState where
  | CLOSED
  | OPEN
  | HALF_OPEN
  deriving DecidableEq, Repr

structure CircuitBreakerConfig where
  failureThreshold : ℕ
  resetTimeoutMs : ℤ
  halfOpenRequests : ℕ
  deriving DecidableEq, Repr

/-- Default config values used when the constructor is given no overrides. -/
def defaultCBConfig : CircuitBreakerConfig := ⟨5, 30000, 3⟩

/-- `CircuitBreaker` instance fields (times are `Date.now()` milliseconds). -/
structure CBState where
  state : CircuitState
  failureCount : ℕ
  successCount : ℕ
  lastFailureTime : ℤ
  halfOpenAttempts : ℕ
  deriving DecidableEq, Repr

def initCB : CBState := ⟨.CLOSED, 0, 0, 0, 0⟩

def transitionTo (st : CBState) (newState : CircuitState) : CBState :=
  let st1 := { st with state := newState }
  match newState with
  | .CLOSED => { st1 with failureCount := 0, successCount := 0 }
  | .HALF_OPEN => { st1 with successCount := 0, halfOpenAttempts := 0 }
  | .OPEN => st1

def onSuccess (cfg : CircuitBreakerConfig) (st : CBState) : CBState :=
  if st.state = .HALF_OPEN then
    let st1 := { st with successCount := st.successCount + 1 }
    if cfg.halfOpenRequests ≤ st1.successCount then transitionTo st1 .CLOSED else st1
  else { st with failureCount := 0 }

def onFailure (cfg : CircuitBreakerConfig) (st : CBState) (now : ℤ) : CBState :=
  let st1 := { st with failureCount := st.failureCount + 1, lastFailureTime := now }
  if st1.state = .HALF_OPEN then transitionTo st1 .OPEN
  else if cfg.failureThreshold ≤ st1.failureCount then transitionTo st1 .OPEN
  else st1

/-- The gate at the top of `execute`: in OPEN it either admits the call
(transitioning to HALF_OPEN once `resetTimeoutMs` has elapsed since the last
failure) or rejects it by throwing. -/
def admitPhase (cfg : CircuitBreakerConfig) (st : CBState) (now : ℤ) : Option CBState :=
  if st.state = .OPEN then
    if cfg.resetTimeoutMs ≤ now - st.lastFailureTime then some (transitionTo st .HALF_OPEN)
    else none
  else some st

inductive ExecResult where
  | rejected
  | completed (ok : Bool)
  deriving DecidableEq, Repr

/-- `execute`, with the wrapped operation's outcome supplied as `ok`. -/
def execute (cfg : CircuitBreakerConfig) (st : CBState) (now : ℤ) (ok : Bool) :
    ExecResult × CBState :=
  match admitPhase cfg st now with
  | none => (.rejected, st)
  | some st1 => (.completed ok, if ok then onSuccess cfg st1 else onFailure cfg st1 now)

/-- A sequence of calls at the given times, all with the same outcome. -/
def runCalls (cfg : CircuitBreakerConfig) (ok : Bool) : CBState → List ℤ → CBState
  | st, [] => st
  | st, t :: ts => runCalls cfg ok (execute cfg st t ok).2 ts

theorem closed_failures_open (cfg : CircuitBreakerConfig) :
    ∀ ts : List ℤ, ∀ st : CBState, st.state = .CLOSED →
      st.failureCount + ts.length = cfg.failureThreshold → ts ≠ [] →
      (runCalls cfg false st ts).state = .OPEN := by
  intro ts
  induction ts with
  | nil => intro st _ _ hne; exact absurd rfl hne
  | cons t ts ih =>
      intro st hc hcount _
      have hgate : admitPhase cfg st t = some st := by
        simp [admitPhase, hc]
      have hstep : (execute cfg st t false).2 = onFailure cfg st t := by
        unfold execute
        rw [hgate]
        simp
      have hof : onFailure cfg st t =
          (if cfg.failureThreshold ≤ st.failureCount + 1
           then transitionTo
             { st with failureCount := st.failureCount + 1, lastFailureTime := t } .OPEN
           else { st with failureCount := st.failureCount + 1, lastFailureTime := t }) := by
        simp [onFailure, hc]
      cases ts with
      | nil =>
          have hle : cfg.failureThreshold ≤ st.failureCount + 1 := by
            simp at hcount
            omega
          simp only [runCalls, hstep, hof, if_pos hle]
          rfl
      | cons t2 ts2 =>
          have hlt : ¬ cfg.failureThreshold ≤ st.failureCount + 1 := by
            simp at hcount
            omega
          simp only [runCalls, hstep, hof, if_neg hlt]
          apply ih
          · simp [hc]
          · simp at hcount ⊢
            omega
          · simp

theorem halfopen_successes_close (cfg : CircuitBreakerConfig) :
    ∀ ts : List ℤ, ∀ st : CBState, st.state = .HALF_OPEN →
      st.successCount + ts.length = cfg.halfOpenRequests → ts ≠ [] →
      (runCalls cfg true st ts).state = .CLOSED
      ∧ (runCalls cfg true st ts).failureCount = 0
      ∧ (runCalls cfg true st ts).successCount = 0 := by
  intro ts
  induction ts with
  | nil => intro st _ _ hne; exact absurd rfl hne
  | cons t ts ih =>
      intro st hh hcount _
      have hgate : admitPhase cfg st t = some st := by
        simp [admitPhase, hh]
      have hstep : (execute cfg st t true).2 = onSuccess cfg st := by
        unfold execute
        rw [hgate]
        simp
      have hos : onSuccess cfg st =
          (if cfg.halfOpenRequests ≤ st.successCount + 1
           then transitionTo { st with successCount := st.successCount + 1 } .CLOSED
           else { st with successCount := st.successCount + 1 }) := by
        simp [onSuccess, hh]
      cases ts with
      | nil =>
          have hle : cfg.halfOpenRequests ≤ st.successCount + 1 := by
            simp at hcount
            omega
          simp only [runCalls, hstep, hos, if_pos hle]
          exact ⟨rfl, rfl, rfl⟩
      | cons t2 ts2 =>
          have hlt : ¬ cfg.halfOpenRequests ≤ st.successCount + 1 := by
            simp at hcount
            omega
          simp only [runCalls, hstep, hos, if_neg hlt]
          apply ih
          · simp [hh]
          · simp at hcount ⊢
            omega
          · simp

/-- Claim C7: starting CLOSED with a zero failure count, `failureThreshold`
consecutive failing calls drive the breaker to OPEN; while OPEN with less than
`resetTimeoutMs` elapsed since the last failure every call is rejected with the
state untouched; once the timeout has elapsed the next call is admitted and the
breaker moves to HALF_OPEN before running it; `halfOpenRequests` consecutive
successes from HALF_OPEN return it to CLOSED with both counters reset; and any
failure in HALF_OPEN sends it back to OPEN. -/
theorem circuitBreaker_transitions (cfg : CircuitBreakerConfig)
    (hth : 1 ≤ cfg.failureThreshold) (hpr : 1 ≤ cfg.halfOpenRequests) :
    (∀ ts : List ℤ, ∀ st : CBState, st.state = .CLOSED → st.failureCount = 0 →
       ts.length = cfg.failureThreshold → (runCalls cfg false st ts).state = .OPEN)
    ∧ (∀ st : CBState, ∀ now : ℤ, ∀ ok : Bool, st.state = .OPEN →
       now - st.lastFailureTime < cfg.resetTimeoutMs →
       execute cfg st now ok = (.rejected, st))
    ∧ (∀ st : CBState, ∀ now : ℤ, ∀ ok : Bool, st.state = .OPEN →
       cfg.resetTimeoutMs ≤ now - st.lastFailureTime →
       admitPhase cfg st now = some (transitionTo st .HALF_OPEN)
       ∧ (transitionTo st .HALF_OPEN).state = .HALF_OPEN
       ∧ (execute cfg st now ok).1 = .completed ok)
    ∧ (∀ ts : List ℤ, ∀ st : CBState, st.state = .HALF_OPEN → st.successCount = 0 →
       ts.length = cfg.halfOpenRequests →
       (runCalls cfg true st ts).state = .CLOSED
       ∧ (runCalls cfg true st ts).failureCount = 0
       ∧ (runCalls cfg true st ts).successCount = 0)
    ∧ (∀ st : CBState, ∀ now : ℤ, st.state = .HALF_OPEN →
       (execute cfg st now false).2.state = .OPEN) := by
  refine ⟨?_, ?_, ?_, ?_, ?_⟩
  · intro ts st hc hf hlen
    apply closed_failures_open cfg ts st hc (by omega)
    intro hnil
    rw [hnil] at hlen
    simp at hlen
    omega
  · intro st now ok ho hlt
    unfold execute admitPhase
    rw [if_pos ho, if_neg (not_le.mpr hlt)]
  · intro st now ok ho hle
    have hgate : admitPhase cfg st now = some (transitionTo st .HALF_OPEN) := by
      simp [admitPhase, ho, hle]
    refine ⟨hgate, rfl, ?_⟩
    unfold execute
    rw [hgate]
  · intro ts st hh hs hlen
    apply halfopen_successes_close cfg ts st hh (by omega)
    intro hnil
    rw [hnil] at hlen
    simp at hlen
    omega
  · intro st now hh
    have hgate : admitPhase cfg st now = some st := by
      simp [admitPhase, hh]
    unfold execute
    rw [hgate]
    simp [onFailure, hh, transitionTo]

theorem circuitBreaker_transitions_witness :
    (runCalls defaultCBConfig false initCB [10, 20, 30, 40, 50]).state = .OPEN
    ∧ execute defaultCBConfig ⟨.OPEN, 5, 0, 1000, 0⟩ 2000 true
        = (.rejected, ⟨.OPEN, 5, 0, 1000, 0⟩)
    ∧ (execute defaultCBConfig ⟨.OPEN, 5, 0, 1000, 0⟩ 40000 true).1 = .completed true
    ∧ (runCalls defaultCBConfig true ⟨.HALF_OPEN, 2, 0, 0, 0⟩ [1, 2, 3]).state = .CLOSED
    ∧ (execute defaultCBConfig ⟨.HALF_OPEN, 0, 0, 0, 0⟩ 5 false).2.state = .OPEN := by
  have h := circuitBreaker_transitions defaultCBConfig (by decide) (by decide)
  exact ⟨h.1 [10, 20, 30, 40, 50] initCB rfl rfl (by decide),
    h.2.1 ⟨.OPEN, 5, 0, 1000, 0⟩ 2000 true rfl (by decide),
    (h.2.2.1 ⟨.OPEN, 5, 0, 1000, 0⟩ 40000 true rfl (by decide)).2.2,
    (h.2.2.2.1 [1, 2, 3] ⟨.HALF_OPEN, 2, 0, 0, 0⟩ rfl rfl (by decide)).1,
    h.2.2.2.2 ⟨.HALF_OPEN, 0, 0, 0, 0⟩ 5 rfl⟩

end CB

namespace Cfg

/-- `ConfigurationModel` fields. -/
structure Configuration where
  sensitivityLevel : ℚ
  attentionKeywords : List String
  userName : String
  silenceTimeoutMs : ℤ
  deepgramApiKey : String
  llmEnabled : Bool
  deriving DecidableEq, Repr

/-- The `ConfigurationModel` constructor defaults. -/
def defaultConfiguration : Configuration :=
  ⟨0.7, ["hey", "hello", "excuse me"], "", 5000, "", false⟩

/-- The environment variables read by `applyEnvOverrides`.
`SILENCE_TIMEOUT_MS` is the already-parsed integer (`none` models unset or a
value `parseInt` turned into `NaN`). -/
structure Env where
  DEEPGRAM_API_KEY : Option String
  LLM_ENABLED : Option String
  SENSITIVITY_LEVEL : Option String
  SILENCE_TIMEOUT_MS : Option ℤ

def emptyEnv : Env := ⟨none, none, none, none⟩

/-- `applyEnvOverrides` (JS truthiness: an unset or empty string variable is
skipped for `DEEPGRAM_API_KEY` and `SENSITIVITY_LEVEL`). -/
def applyEnvOverrides (c : Configuration) (env : Env) : Configuration :=
  let c1 := match env.DEEPGRAM_API_KEY with
    | some k => if k = "" then c else { c with deepgramApiKey := k }
    | none => c
  let c2 := match env.LLM_ENABLED with
    | some v => { c1 with llmEnabled := v = "true" }
    | none => c1
  let c3 := match env.SENSITIVITY_LEVEL with
    | some lv =>
        if lv = "" then c2
        else
          let l := lv.toLower
          if l = "low" then { c2 with sensitivityLevel := 0.3 }
          else if l = "medium" then { c2 with sensitivityLevel := 0.5 }
          else if l = "high" then { c2 with sensitivityLevel := 0.8 }
          else c2
    | none => c2
  match env.SILENCE_TIMEOUT_MS with
  | some t => if 1000 ≤ t then { c3 with silenceTimeoutMs := t } else c3
  | none => c3

/-- `loadConfiguration` when the config file is absent (ENOENT branch): keep
the constructor defaults, then apply environment overrides. -/
def loadConfigurationNoFile (env : Env) : Configuration :=
  applyEnvOverrides defaultConfiguration env

/-- Claim C9, counterexample: the default configuration's keyword list is
`["hey", "hello", "excuse me"]` and does NOT contain `"hi"`, so it is not the
claimed set {hey, hello, excuse me, hi}. -/
theorem default_keywords_missing_hi :
    (loadConfigurationNoFile emptyEnv).attentionKeywords = ["hey", "hello", "excuse me"]
    ∧ "hi" ∉ (loadConfigurationNoFile emptyEnv).attentionKeywords := by
  refine ⟨rfl, ?_⟩
  intro h
  simp [loadConfigurationNoFile, applyEnvOverrides, emptyEnv, defaultConfiguration] at h

/-- Claim C9 as amended: with no file and no environment overrides, the
configuration has sensitivity 0.7, keywords {hey, hello, excuse me} (without
"hi"), silence timeout 5000 ms, and the LLM disabled. -/
theorem default_configuration_values :
    (loadConfigurationNoFile emptyEnv).sensitivityLevel = 0.7
    ∧ (loadConfigurationNoFile emptyEnv).attentionKeywords = ["hey", "hello", "excuse me"]
    ∧ (loadConfigurationNoFile emptyEnv).silenceTimeoutMs = 5000
    ∧ (loadConfigurationNoFile emptyEnv).llmEnabled = false :=
  ⟨rfl, rfl, rfl, rfl⟩

end Cfg

namespace AE

open Dispatcher (AttentionDecision)

/-- `DetectionResult`; matched patterns are recorded by index into the
engine's pattern lists (the source records the regex source text). -/
structure DetectionResult where
  decision : AttentionDecision
  confidence : ℚ
  matchedKeywords : List String
  matchedPatterns : List ℕ
  usedLLM : Bool
  deriving Repr

/-- `AttentionDetectionEngineImpl` state.  The question / direct-address
regexes are abstracted as boolean predicates on the lowercased text; the LLM
provider returns `none` on failure (a thrown or timed-out call) and otherwise
the parsed `{confidence, reasoning}` pair. -/
structure Engine where
  attentionKeywords : List String
  userName : String
  llmEnabled : Bool
  llmProvider : Option (String → Option (ℚ × String))
  uncertaintyThreshold : ℚ
  questionPatterns : List (String → Bool)
  directAddressPatterns : List (String → Bool)

def jsToLower (s : String) : String := ⟨s.data.map Char.toLower⟩

def trimChars (l : List Char) : List Char :=
  ((l.dropWhile Char.isWhitespace).reverse.dropWhile Char.isWhitespace).reverse

def jsTrim (s : String) : String := ⟨trimChars s.data⟩

def includesCore : List Char → List Char → Bool
  | [], needle => needle.isEmpty
  | c :: rest, needle => needle.isPrefixOf (c :: rest) || includesCore rest needle

/-- JS `String.prototype.includes`. -/
def jsIncludes (hay needle : String) : Bool := includesCore hay.data needle.data

/-- JS regex word character, for the `\b`-delimited literal-word regexes. -/
def isWordChar (c : Char) : Bool := c.isAlphanum || c = '_'

def testWordAux (w : List Char) (prev : Option Char) : List Char → Bool
  | [] => false
  | c :: rest =>
      (w.isPrefixOf (c :: rest)
        && (match prev with
            | none => true
            | some p => !isWordChar p)
        && (match (c :: rest).drop w.length with
            | [] => true
            | d :: _ => !isWordChar d))
      || testWordAux w (some c) rest

/-- Test of a `\b`-delimited literal word (the fixed regexes of
`calculateRuleBasedConfidence`). -/
def testWordBoundary (w text : String) : Bool := testWordAux w.data none text.data

def startsUppercase (text : String) : Bool :=
  match text.data with
  | [] => false
  | c :: _ => decide (('A' ≤ c) ∧ (c ≤ 'Z'))

/-- `findMatchedKeywords` on the lowercased text. -/
def findMatchedKeywords (e : Engine) (text : String) : List String :=
  let m := e.attentionKeywords.filter (fun kw => jsIncludes text (jsToLower kw))
  if e.userName ≠ "" ∧ jsIncludes text (jsToLower e.userName) then m ++ [e.userName] else m

def matchedIdxs (ps : List (String → Bool)) (text : String) : List ℕ :=
  (List.range ps.length).filter (fun i => (ps.getD i (fun _ => false)) text)

/-- `findMatchedPatterns`: question-pattern indices, then direct-address
pattern indices (offset past the question patterns). -/
def findMatchedPatterns (e : Engine) (text : String) : List ℕ :=
  matchedIdxs e.questionPatterns text
    ++ (matchedIdxs e.directAddressPatterns text).map (fun i => i + e.questionPatterns.length)

/-- `calculateRuleBasedConfidence`.  (Note the text is already lowercased, so
the `/^[A-Z]/` bonus never fires in the source either.) -/
def calculateRuleBasedConfidence (text : String) : ℚ :=
  let c1 : ℚ := if jsIncludes text "?" then 0.2 else 0
  let c2 := c1 + (if testWordBoundary "you" text then 0.15 else 0)
  let c3 := c2 + (if testWordBoundary "your" text then 0.1 else 0)
  let c4 := c3 + (if text.length < 50 then 0.1 else 0)
  let c5 := c4 + (if startsUppercase text then 0.05 else 0)
  min c5 1

/-- `invokeLLM`: `none` models a thrown error (no provider, or a failed call). -/
def invokeLLM (e : Engine) (text : String) (sensitivity : ℚ) : Option DetectionResult :=
  match e.llmProvider with
  | none => none
  | some provider =>
      match provider text with
      | none => none
      | some (conf, _) =>
          let adjusted := conf * sensitivity
          let decision : AttentionDecision :=
            if 0.8 ≤ adjusted then .DEFINITELY_TO_ME
            else if 0.5 ≤ adjusted then .PROBABLY_TO_ME
            else .IGNORE
          some ⟨decision, conf, [], [], true⟩

/-- `analyzeWithDetails`; the second component records whether the LLM was
consulted at all (the result's `usedLLM` flag alone cannot show this, since a
failed LLM call falls back with `usedLLM = false`). -/
def analyzeWithDetails (e : Engine) (transcriptText : String) (sensitivity : ℚ) :
    DetectionResult × Bool :=
  let text := jsTrim (jsToLower transcriptText)
  if text = "" then (⟨.IGNORE, 1, [], [], false⟩, false)
  else
    let matchedKeywords := findMatchedKeywords e text
    if matchedKeywords ≠ [] then (⟨.DEFINITELY_TO_ME, 0.95, matchedKeywords, [], false⟩, false)
    else
      let matchedPatterns := findMatchedPatterns e text
      if matchedPatterns ≠ [] then (⟨.PROBABLY_TO_ME, 0.7, [], matchedPatterns, false⟩, false)
      else
        let rbc := calculateRuleBasedConfidence text
        if rbc < e.uncertaintyThreshold ∧ e.llmEnabled = true ∧ e.llmProvider.isSome then
          match invokeLLM e text sensitivity with
          | some r => (r, true)
          | none => (⟨.IGNORE, 1 - rbc, [], [], false⟩, true)
        else (⟨.IGNORE, 1 - rbc, [], [], false⟩, false)

theorem toLower_whitespace (c : Char) (h : c.isWhitespace = true) : c.toLower = c := by
  have h4 : c = ' ' ∨ c = '\t' ∨ c = '\r' ∨ c = '\n' := by
    simpa [Char.isWhitespace, or_assoc] using h
  rcases h4 with h | h | h | h <;> subst h <;> decide

theorem map_toLower_of_whitespace (l : List Char) (h : ∀ c ∈ l, c.isWhitespace = true) :
    l.map Char.toLower = l := by
  induction l with
  | nil => rfl
  | cons c rest ih =>
      simp only [List.map_cons]
      rw [toLower_whitespace c (h c (by simp)), ih (fun x hx => h x (by simp [hx]))]

theorem trimChars_all_whitespace (l : List Char) (h : ∀ c ∈ l, c.isWhitespace = true) :
    trimChars l = [] := by
  have hdrop : l.dropWhile Char.isWhitespace = [] := by
    rw [List.dropWhile_eq_nil_iff]
    exact h
  unfold trimChars
  rw [hdrop]
  simp

theorem jsTrim_toLower_whitespace (t : String) (h : ∀ c ∈ t.data, c.isWhitespace = true) :
    jsTrim (jsToLower t) = "" := by
  show String.mk (trimChars (t.data.map Char.toLower)) = ""
  rw [map_toLower_of_whitespace t.data h, trimChars_all_whitespace t.data h]

/-- Claim C10: for every transcript whose text is empty or all-whitespace, the
attention engine returns IGNORE with confidence 1.0, no matched keywords, no
matched patterns, and never consults the LLM, for every engine configuration
and sensitivity (in particular whether or not the LLM is enabled). -/
theorem analyze_whitespace_ignore (e : Engine) (s : ℚ) (t : String)
    (hw : ∀ c ∈ t.data, c.isWhitespace = true) :
    analyzeWithDetails e t s = (⟨.IGNORE, 1, [], [], false⟩, false) := by
  have htrim : jsTrim (jsToLower t) = "" := jsTrim_toLower_whitespace t hw
  simp [analyzeWithDetails, htrim]

/-- A concrete engine configuration: the class defaults (default keyword set,
no user name, LLM disabled and absent, threshold 0.5), with the regex
predicates left empty. -/
def defaultEngine : Engine :=
  ⟨["hey", "hello", "excuse me", "hi"], "", false, none, 0.5, [], []⟩

theorem analyze_whitespace_ignore_witness :
    (∀ c ∈ ("  \t".data), c.isWhitespace = true)
    ∧ analyzeWithDetails defaultEngine "  \t" 0.7
        = (⟨.IGNORE, 1, [], [], false⟩, false) :=
  ⟨by decide, analyze_whitespace_ignore defaultEngine 0.7 "  \t" (by decide)⟩

end AE

namespace VP

noncomputable section

/-- Per-frame RMS energy, features[0..31].  `data` is the decoded PCM float
array; out-of-range reads return the typed-array default 0.  This real-valued
model uses Lean's x/0 = 0 where JS computes 0/0 = NaN (which happens exactly
when 1 ≤ data.length ≤ 31, so the frame size floors to 0); the NaN-aware
`energyFeatureN` below models that regime faithfully. -/
def energyFeature (data : List ℝ) (i : ℕ) : ℝ :=
  let fs := data.length / 32
  let start := i * fs
  let stop := min (start + fs) data.length
  Real.sqrt ((∑ j ∈ Finset.Ico start stop, data.getD j 0 ^ 2) / ((stop - start : ℕ) : ℝ))

/-- Per-frame zero-crossing rate, features[32..63].  Like `energyFeature`,
this uses x/0 = 0 where JS computes 0/0 = NaN for 1–31-sample buffers; see
`zcrFeatureN` for the NaN-aware version. -/
def zcrFeature (data : List ℝ) (i : ℕ) : ℝ :=
  let fs := data.length / 32
  let start := i * fs
  let stop := min (start + fs) data.length
  (((Finset.Ico (start + 1) stop).filter
      (fun j => ¬((0 ≤ data.getD j 0) ↔ (0 ≤ data.getD (j - 1) 0)))).card : ℝ)
    / ((stop - start : ℕ) : ℝ)

/-- Per-frame spectral-centroid approximation, features[64..95]. -/
def centroidFeature (data : List ℝ) (i : ℕ) : ℝ :=
  let fs := data.length / 32
  let start := i * fs
  let stop := min (start + fs) data.length
  let ws := ∑ j ∈ Finset.Ico start stop, ((j - start : ℕ) : ℝ) * |data.getD j 0|
  let sm := ∑ j ∈ Finset.Ico start stop, |data.getD j 0|
  if 0 < sm then ws / sm else 0

def listMean (data : List ℝ) : ℝ := data.sum / (data.length : ℝ)

def listStdDev (data : List ℝ) : ℝ :=
  Real.sqrt ((data.map (fun x => (x - listMean data) ^ 2)).sum / (data.length : ℝ))

def listMax : List ℝ → ℝ
  | [] => 0
  | x :: xs => xs.foldl max x

def listMin : List ℝ → ℝ
  | [] => 0
  | x :: xs => xs.foldl min x

/-- Statistical features, features[96..127]: mean, stddev, max, min, then the
derived products `features[k-4] * features[k+32]` (an energy feature times a
zero-crossing feature). -/
def statFeature (data : List ℝ) (k : ℕ) : ℝ :=
  if k = 0 then listMean data
  else if k = 1 then listStdDev data
  else if k = 2 then listMax data
  else if k = 3 then listMin data
  else energyFeature data (k - 4) * zcrFeature data k

/-- `extractFeatures` entry `i`; an empty buffer short-circuits to the zero
vector. -/
def featureAt (data : List ℝ) (i : ℕ) : ℝ :=
  if data.length = 0 then 0
  else if i < 32 then energyFeature data i
  else if i < 64 then zcrFeature data (i - 32)
  else if i < 96 then centroidFeature data (i - 64)
  else statFeature data (i - 96)

def extractFeatures (data : List ℝ) : List ℝ :=
  List.ofFn (fun i : Fin 128 => featureAt data i.val)

/-- `calculateSimilarity`: cosine similarity over the common prefix, remapped
to [0,1] and clamped; zero if either magnitude vanishes. -/
def calculateSimilarity (f1 f2 : List ℝ) : ℝ :=
  let n := min f1.length f2.length
  let dot := ∑ i ∈ Finset.range n, f1.getD i 0 * f2.getD i 0
  let m1 := Real.sqrt (∑ i ∈ Finset.range n, f1.getD i 0 ^ 2)
  let m2 := Real.sqrt (∑ i ∈ Finset.range n, f2.getD i 0 ^ 2)
  if m1 = 0 ∨ m2 = 0 then 0
  else max 0 (min 1 ((dot / (m1 * m2) + 1) / 2))

structure MatchResult where
  isMatch : Bool
  confidence : ℝ
  profileId : Option String

def initialMatch : MatchResult := ⟨false, 0, none⟩

/-- One iteration of the `matchesIgnoreList` loop over the profile map. -/
def matchStep (sens : ℝ) (feats : List ℝ) (best : MatchResult) (pr : String × List ℝ) :
    MatchResult :=
  if best.confidence < calculateSimilarity feats pr.2 then
    ⟨if sens ≤ calculateSimilarity feats pr.2 then true else false,
     calculateSimilarity feats pr.2,
     if sens ≤ calculateSimilarity feats pr.2 then some pr.1 else none⟩
  else best

/-- `matchesIgnoreList` (profiles listed in map iteration order; the usage
counters do not affect the returned result and are omitted). -/
def matchesIgnoreList (sens : ℝ) (profiles : List (String × List ℝ)) (chunk : List ℝ) :
    MatchResult :=
  if profiles = [] then initialMatch
  else profiles.foldl (matchStep sens (extractFeatures chunk)) initialMatch

/-- `extractVoiceSignature`: entry `i` of the sample-averaged feature vector. -/
def averagedSignature (samples : List (List ℝ)) (i : ℕ) : ℝ :=
  ((samples.map (fun s => featureAt s i)).sum) / (samples.length : ℝ)

def signatureMagnitude (samples : List (List ℝ)) : ℝ :=
  Real.sqrt (∑ i ∈ Finset.range 128, averagedSignature samples i ^ 2)

/-- `extractVoiceSignature`: average the per-sample features, then normalize
only when the magnitude is positive. -/
def extractVoiceSignature (samples : List (List ℝ)) : List ℝ :=
  if 0 < signatureMagnitude samples then
    List.ofFn (fun i : Fin 128 => averagedSignature samples i.val / signatureMagnitude samples)
  else
    List.ofFn (fun i : Fin 128 => averagedSignature samples i.val)

structure StoredProfile where
  name : String
  voiceSignature : List ℝ

/-- `Map.set`: replace in place if the key exists, else append. -/
def mapSet : List (String × StoredProfile) → String → StoredProfile →
    List (String × StoredProfile)
  | [], id, p => [(id, p)]
  | (k, q) :: rest, id, p =>
      if k = id then (id, p) :: rest else (k, q) :: mapSet rest id p

/-- `addProfile`: rejects an empty sample list, otherwise stores (silently
overwriting any existing profile with the same id). -/
def addProfile (audioSamples : List (List ℝ)) (profileId : String) (name : Option String)
    (reg : List (String × StoredProfile)) : Except String (List (String × StoredProfile)) :=
  if audioSamples = [] then .error "At least one audio sample is required"
  else .ok (mapSet reg profileId
    ⟨name.getD (String.append "Profile " profileId), extractVoiceSignature audioSamples⟩)

/-- The registry operations of `VoiceProfileServiceImpl` that touch stored
profiles. -/
inductive RegOp where
  | add (samples : List (List ℝ)) (profileId : String) (name : Option String)
  | remove (profileId : String)
  | rename (profileId : String) (name : String)

/-! NaN-aware model of the signature pipeline.  JS numbers are modelled as
`Option ℝ` with `none` standing for NaN.  In this code a division by a zero
count only ever has numerator 0 (both arise from the same empty frame range),
so the JS result is 0/0 = NaN, never ±Infinity; `Math.sqrt` of a negative
argument is likewise NaN.  The real-valued definitions above remain the model
of the no-NaN regime (buffers of 0 or ≥ 32 samples), where the two agree. -/

def oadd : Option ℝ → Option ℝ → Option ℝ
  | some a, some b => some (a + b)
  | _, _ => none

def omul : Option ℝ → Option ℝ → Option ℝ
  | some a, some b => some (a * b)
  | _, _ => none

def osqrt : Option ℝ → Option ℝ
  | some a => if a < 0 then none else some (Real.sqrt a)
  | none => none

/-- Division of a JS number by an integer count; a zero count gives NaN (in
this program the numerator is 0 whenever the count is). -/
def odivNat (x : Option ℝ) (n : ℕ) : Option ℝ :=
  if n = 0 then none else x.map (fun a => a / (n : ℝ))

/-- Left-to-right `reduce((sum, v) => sum + v, 0)` over JS numbers. -/
def osumList (l : List (Option ℝ)) : Option ℝ := l.foldl oadd (some 0)

/-- `reduce((sum, v) => sum + v * v, 0)`: the squared L2 norm of a stored
signature, NaN if any entry is NaN. -/
def osumSq (sig : List (Option ℝ)) : Option ℝ := osumList (sig.map (fun x => omul x x))

/-- NaN-aware `energyFeature`: for 1–31-sample buffers the frame size floors
to 0, the frame range is empty, and JS computes `Math.sqrt(0/0) = NaN`. -/
def energyFeatureN (data : List ℝ) (i : ℕ) : Option ℝ :=
  osqrt (odivNat
    (some (∑ j ∈ Finset.Ico (i * (data.length / 32))
        (min (i * (data.length / 32) + data.length / 32) data.length), data.getD j 0 ^ 2))
    (min (i * (data.length / 32) + data.length / 32) data.length - i * (data.length / 32)))

/-- NaN-aware `zcrFeature`: `0/0 = NaN` on an empty frame range. -/
def zcrFeatureN (data : List ℝ) (i : ℕ) : Option ℝ :=
  odivNat
    (some (((Finset.Ico (i * (data.length / 32) + 1)
        (min (i * (data.length / 32) + data.length / 32) data.length)).filter
      (fun j => ¬((0 ≤ data.getD j 0) ↔ (0 ≤ data.getD (j - 1) 0)))).card : ℝ))
    (min (i * (data.length / 32) + data.length / 32) data.length - i * (data.length / 32))

/-- NaN-aware `statFeature`.  The mean/stddev/max/min entries only run with a
non-empty buffer (the enclosing `extractFeatures` early-returns on empty), so
they are finite and the real-valued models are reused; the derived products
propagate NaN from the energy and zero-crossing features. -/
def statFeatureN (data : List ℝ) (k : ℕ) : Option ℝ :=
  if k = 0 then some (listMean data)
  else if k = 1 then some (listStdDev data)
  else if k = 2 then some (listMax data)
  else if k = 3 then some (listMin data)
  else omul (energyFeatureN data (k - 4)) (zcrFeatureN data k)

/-- NaN-aware `extractFeatures` entry `i` (the centroid is guarded by a
positive-sum test in the source and is always finite). -/
def featureAtN (data : List ℝ) (i : ℕ) : Option ℝ :=
  if data.length = 0 then some 0
  else if i < 32 then energyFeatureN data i
  else if i < 64 then zcrFeatureN data (i - 32)
  else if i < 96 then some (centroidFeature data (i - 64))
  else statFeatureN data (i - 96)

def averagedSignatureN (samples : List (List ℝ)) (i : ℕ) : Option ℝ :=
  odivNat (osumList (samples.map (fun s => featureAtN s i))) samples.length

def signatureMagnitudeN (samples : List (List ℝ)) : Option ℝ :=
  osqrt (osumList ((List.range 128).map
    (fun i => omul (averagedSignatureN samples i) (averagedSignatureN samples i))))

/-- NaN-aware `extractVoiceSignature`: `magnitude > 0` is false for NaN, so a
NaN-poisoned signature is stored unnormalized. -/
def extractVoiceSignatureN (samples : List (List ℝ)) : List (Option ℝ) :=
  match signatureMagnitudeN samples with
  | some m =>
      if 0 < m then
        List.ofFn (fun i : Fin 128 =>
          (averagedSignatureN samples i.val).map (fun a => a / m))
      else List.ofFn (fun i : Fin 128 => averagedSignatureN samples i.val)
  | none => List.ofFn (fun i : Fin 128 => averagedSignatureN samples i.val)

structure StoredProfileN where
  name : String
  voiceSignature : List (Option ℝ)

def mapSetN : List (String × StoredProfileN) → String → StoredProfileN →
    List (String × StoredProfileN)
  | [], id, p => [(id, p)]
  | (k, q) :: rest, id, p =>
      if k = id then (id, p) :: rest else (k, q) :: mapSetN rest id p

/-- `addProfile` over the NaN-aware signature model. -/
def addProfileN (audioSamples : List (List ℝ)) (profileId : String) (name : Option String)
    (reg : List (String × StoredProfileN)) : Except String (List (String × StoredProfileN)) :=
  if audioSamples = [] then .error "At least one audio sample is required"
  else .ok (mapSetN reg profileId
    ⟨name.getD (String.append "Profile " profileId), extractVoiceSignatureN audioSamples⟩)

def applyOpN : RegOp → List (String × StoredProfileN) → List (String × StoredProfileN)
  | .add samples id name, reg =>
      match addProfileN samples id name reg with
      | .ok reg2 => reg2
      | .error _ => reg
  | .remove id, reg => reg.filter (fun pr => pr.1 ≠ id)
  | .rename id nm, reg =>
      reg.map (fun pr => if pr.1 = id then (pr.1, ⟨nm, pr.2.voiceSignature⟩) else pr)

def runOpsN (ops : List RegOp) : List (String × StoredProfileN) :=
  ops.foldl (fun reg op => applyOpN op reg) []

theorem featureAt_nil (i : ℕ) : featureAt [] i = 0 := by
  simp [featureAt]

theorem extractFeatures_nil :
    extractFeatures [] = List.ofFn (fun _ : Fin 128 => (0 : ℝ)) := by
  simp [extractFeatures, featureAt_nil]

theorem getD_replicate_zero : ∀ n i : ℕ, (List.replicate n (0 : ℝ)).getD i 0 = 0
  | 0, _ => by simp
  | _ + 1, 0 => by simp [List.replicate]
  | n + 1, i + 1 => by
      simp only [List.replicate, List.getD_cons_succ]
      exact getD_replicate_zero n i

/-- A chunk whose decoded samples are empty extracts the zero feature vector,
whose similarity to every signature is 0. -/
theorem calculateSimilarity_nil_chunk (sig : List ℝ) :
    calculateSimilarity (extractFeatures []) sig = 0 := by
  rw [extractFeatures_nil, List.ofFn_const]
  unfold calculateSimilarity
  have hz : ∀ i : ℕ, (List.replicate 128 (0 : ℝ)).getD i 0 = 0 := getD_replicate_zero 128
  have hm : Real.sqrt (∑ i ∈ Finset.range (min (List.replicate 128 (0 : ℝ)).length sig.length),
      (List.replicate 128 (0 : ℝ)).getD i 0 ^ 2) = 0 := by
    rw [Finset.sum_eq_zero (fun i _ => by rw [hz i]; ring)]
    exact Real.sqrt_zero
  rw [if_pos (Or.inl hm)]

/-- Loop invariant of the `matchesIgnoreList` fold: the accumulator's
confidence is a non-negative upper bound of the similarities seen so far and
is attained unless zero; `isMatch` holds iff the confidence is positive and
clears the sensitivity; and `profileId` names a profile attaining the
confidence exactly when `isMatch` holds. -/
def GoodAcc (sens : ℝ) (feats : List ℝ) (done : List (String × List ℝ)) (b : MatchResult) :
    Prop :=
  0 ≤ b.confidence
  ∧ (b.confidence = 0 ∨ ∃ pr ∈ done, calculateSimilarity feats pr.2 = b.confidence)
  ∧ (∀ pr ∈ done, calculateSimilarity feats pr.2 ≤ b.confidence)
  ∧ (b.isMatch = true ↔ (0 < b.confidence ∧ sens ≤ b.confidence))
  ∧ (∀ id, b.profileId = some id →
      ∃ sig, (id, sig) ∈ done ∧ calculateSimilarity feats sig = b.confidence)
  ∧ (b.isMatch = true → b.profileId.isSome = true)

theorem goodAcc_step (sens : ℝ) (feats : List ℝ) (done : List (String × List ℝ))
    (b : MatchResult) (pr : String × List ℝ) (h : GoodAcc sens feats done b) :
    GoodAcc sens feats (done ++ [pr]) (matchStep sens feats b pr) := by
  obtain ⟨h0, hex, hub, hiff, hpid, hsome⟩ := h
  unfold matchStep
  by_cases hlt : b.confidence < calculateSimilarity feats pr.2
  · rw [if_pos hlt]
    have hpos : 0 < calculateSimilarity feats pr.2 := lt_of_le_of_lt h0 hlt
    have hubnew : ∀ q ∈ done ++ [pr],
        calculateSimilarity feats q.2 ≤ calculateSimilarity feats pr.2 := by
      intro q hq
      rcases List.mem_append.mp hq with hq | hq
      · exact le_of_lt (lt_of_le_of_lt (hub q hq) hlt)
      · rw [List.mem_singleton.mp hq]
    by_cases hc : sens ≤ calculateSimilarity feats pr.2
    · rw [if_pos hc, if_pos hc]
      refine ⟨le_of_lt hpos, Or.inr ⟨pr, by simp, rfl⟩, hubnew, ?_, ?_, ?_⟩
      · exact iff_of_true rfl ⟨hpos, hc⟩
      · intro id hid
        have hide : pr.1 = id := by simpa using hid
        refine ⟨pr.2, ?_, rfl⟩
        rw [← hide]
        simp
      · intro _
        rfl
    · rw [if_neg hc, if_neg hc]
      refine ⟨le_of_lt hpos, Or.inr ⟨pr, by simp, rfl⟩, hubnew, ?_, ?_, ?_⟩
      · exact iff_of_false (by simp) (fun h2 => hc h2.2)
      · intro id hid
        exact absurd hid (by simp)
      · intro hm
        exact absurd hm (by simp)
  · rw [if_neg hlt]
    have hle : calculateSimilarity feats pr.2 ≤ b.confidence := not_lt.mp hlt
    refine ⟨h0, ?_, ?_, hiff, ?_, hsome⟩
    · rcases hex with hz | ⟨q, hq, hs⟩
      · exact Or.inl hz
      · exact Or.inr ⟨q, List.mem_append.mpr (Or.inl hq), hs⟩
    · intro q hq
      rcases List.mem_append.mp hq with hq | hq
      · exact hub q hq
      · rw [List.mem_singleton.mp hq]
        exact hle
    · intro id hid
      obtain ⟨sig, hmem, hs⟩ := hpid id hid
      exact ⟨sig, List.mem_append.mpr (Or.inl hmem), hs⟩

theorem goodAcc_foldl (sens : ℝ) (feats : List ℝ) :
    ∀ (l : List (String × List ℝ)) (done : List (String × List ℝ)) (b : MatchResult),
      GoodAcc sens feats done b →
      GoodAcc sens feats (done ++ l) (l.foldl (matchStep sens feats) b) := by
  intro l
  induction l with
  | nil => intro done b h; rw [List.append_nil]; exact h
  | cons pr rest ih =>
      intro done b h
      have h2 := ih (done ++ [pr]) (matchStep sens feats b pr) (goodAcc_step sens feats done b pr h)
      simpa using h2

theorem goodAcc_initial (sens : ℝ) (feats : List ℝ) : GoodAcc sens feats [] initialMatch := by
  refine ⟨le_refl 0, Or.inl rfl, ?_, ?_, ?_, ?_⟩ <;> simp [initialMatch]

theorem goodAcc_main (sens : ℝ) (feats : List ℝ) (l : List (String × List ℝ)) :
    GoodAcc sens feats l (l.foldl (matchStep sens feats) initialMatch) := by
  have h := goodAcc_foldl sens feats l [] initialMatch (goodAcc_initial sens feats)
  simpa using h

/-- Claim C4 as amended: for a non-empty registry and a positive sensitivity,
`matchesIgnoreList` reports a match iff some stored profile's similarity to
the frame reaches the sensitivity; the reported profile attains the returned
confidence, which bounds every profile's similarity (argmax); and a match
always carries a profile id.  (At sensitivity 0 the "iff" fails: a frame with
all similarities equal to 0 satisfies `0 ≥ sensitivity` yet is not a match,
because the loop only updates on a strict improvement over confidence 0.) -/
theorem matchesIgnoreList_spec (sens : ℝ) (profiles : List (String × List ℝ))
    (chunk : List ℝ) (hne : profiles ≠ []) (hpos : 0 < sens) :
    ((matchesIgnoreList sens profiles chunk).isMatch = true
      ↔ ∃ pr ∈ profiles, sens ≤ calculateSimilarity (extractFeatures chunk) pr.2)
    ∧ (∀ id, (matchesIgnoreList sens profiles chunk).profileId = some id →
        ∃ sig, (id, sig) ∈ profiles
          ∧ calculateSimilarity (extractFeatures chunk) sig
              = (matchesIgnoreList sens profiles chunk).confidence
          ∧ ∀ pr ∈ profiles, calculateSimilarity (extractFeatures chunk) pr.2
              ≤ (matchesIgnoreList sens profiles chunk).confidence)
    ∧ ((matchesIgnoreList sens profiles chunk).isMatch = true →
        (matchesIgnoreList sens profiles chunk).profileId.isSome = true) := by
  have hdef : matchesIgnoreList sens profiles chunk
      = profiles.foldl (matchStep sens (extractFeatures chunk)) initialMatch := by
    unfold matchesIgnoreList
    rw [if_neg hne]
  obtain ⟨h0, hex, hub, hiff, hpid, hsome⟩ := goodAcc_main sens (extractFeatures chunk) profiles
  rw [hdef]
  refine ⟨?_, ?_, hsome⟩
  · constructor
    · intro hm
      obtain ⟨hcpos, hcs⟩ := hiff.mp hm
      rcases hex with hz | ⟨q, hq, hs⟩
      · rw [hz] at hcpos
        exact absurd hcpos (lt_irrefl 0)
      · exact ⟨q, hq, by rw [hs]; exact hcs⟩
    · intro ⟨q, hq, hs⟩
      apply hiff.mpr
      have hq2 := hub q hq
      exact ⟨lt_of_lt_of_le hpos (le_trans hs hq2), le_trans hs hq2⟩
  · intro id hid
    obtain ⟨sig, hmem, hs⟩ := hpid id hid
    exact ⟨sig, hmem, hs, hub⟩

theorem matchesIgnoreList_spec_witness :
    (([("p", List.replicate 128 (1 : ℝ))] : List (String × List ℝ)) ≠ []
      ∧ (0 : ℝ) < 0.5)
    ∧ (((matchesIgnoreList 0.5 [("p", List.replicate 128 (1 : ℝ))] []).isMatch = true
      ↔ ∃ pr ∈ ([("p", List.replicate 128 (1 : ℝ))] : List (String × List ℝ)),
          (0.5 : ℝ) ≤ calculateSimilarity (extractFeatures []) pr.2)) :=
  ⟨⟨by simp, by norm_num⟩,
    (matchesIgnoreList_spec 0.5 [("p", List.replicate 128 (1 : ℝ))] []
      (by simp) (by norm_num)).1⟩

/-- Claim C4, counterexample to the claim as literally stated: at sensitivity
0 with a frame whose similarity to the single stored profile is 0, some
profile has similarity `≥` the sensitivity, yet `isMatch` is `false`. -/
theorem matchesIgnoreList_zero_sens_counterexample :
    (∃ pr ∈ ([("p", List.replicate 128 (1 : ℝ))] : List (String × List ℝ)),
        (0 : ℝ) ≤ calculateSimilarity (extractFeatures []) pr.2)
    ∧ (matchesIgnoreList 0 [("p", List.replicate 128 (1 : ℝ))] []).isMatch = false := by
  constructor
  · exact ⟨("p", List.replicate 128 (1 : ℝ)), by simp,
      by rw [calculateSimilarity_nil_chunk]⟩
  · have hdef : matchesIgnoreList 0 [("p", List.replicate 128 (1 : ℝ))] []
        = matchStep 0 (extractFeatures []) initialMatch ("p", List.replicate 128 (1 : ℝ)) := by
      unfold matchesIgnoreList
      rw [if_neg (by simp)]
      rfl
    rw [hdef]
    unfold matchStep
    rw [if_neg (by rw [calculateSimilarity_nil_chunk]; exact lt_irrefl 0)]
    rfl

theorem foldl_conf_indep (feats : List ℝ) (s1 s2 : ℝ) :
    ∀ (l : List (String × List ℝ)) (b1 b2 : MatchResult),
      b1.confidence = b2.confidence →
      (l.foldl (matchStep s1 feats) b1).confidence
        = (l.foldl (matchStep s2 feats) b2).confidence := by
  intro l
  induction l with
  | nil => intro b1 b2 h; exact h
  | cons pr rest ih =>
      intro b1 b2 h
      apply ih
      unfold matchStep
      rw [h]
      by_cases hlt : b2.confidence < calculateSimilarity feats pr.2
      · rw [if_pos hlt, if_pos hlt]
      · rw [if_neg hlt, if_neg hlt]
        exact h

/-- Claim C5: for a fixed frame and registry, `isMatch` is antitone in the
sensitivity: a match at the higher sensitivity is a match at the lower one,
and a non-match at the lower sensitivity is a non-match at the higher one. -/
theorem matchesIgnoreList_monotone (chunk : List ℝ) (profiles : List (String × List ℝ))
    (s1 s2 : ℝ) (_h0 : 0 ≤ s1) (h12 : s1 ≤ s2) (_h1 : s2 ≤ 1) :
    ((matchesIgnoreList s2 profiles chunk).isMatch = true →
      (matchesIgnoreList s1 profiles chunk).isMatch = true)
    ∧ ((matchesIgnoreList s1 profiles chunk).isMatch = false →
      (matchesIgnoreList s2 profiles chunk).isMatch = false) := by
  by_cases hne : profiles = []
  · subst hne
    constructor <;> (intro h; exact h)
  · have hdef1 : matchesIgnoreList s1 profiles chunk
        = profiles.foldl (matchStep s1 (extractFeatures chunk)) initialMatch := by
      unfold matchesIgnoreList
      rw [if_neg hne]
    have hdef2 : matchesIgnoreList s2 profiles chunk
        = profiles.foldl (matchStep s2 (extractFeatures chunk)) initialMatch := by
      unfold matchesIgnoreList
      rw [if_neg hne]
    obtain ⟨g10, _, _, g1iff, _, _⟩ := goodAcc_main s1 (extractFeatures chunk) profiles
    obtain ⟨g20, _, _, g2iff, _, _⟩ := goodAcc_main s2 (extractFeatures chunk) profiles
    have hconf : (profiles.foldl (matchStep s1 (extractFeatures chunk)) initialMatch).confidence
        = (profiles.foldl (matchStep s2 (extractFeatures chunk)) initialMatch).confidence :=
      foldl_conf_indep (extractFeatures chunk) s1 s2 profiles initialMatch initialMatch rfl
    have hfwd : (matchesIgnoreList s2 profiles chunk).isMatch = true →
        (matchesIgnoreList s1 profiles chunk).isMatch = true := by
      intro hm
      rw [hdef2] at hm
      obtain ⟨hcpos, hcs⟩ := g2iff.mp hm
      rw [hdef1]
      apply g1iff.mpr
      rw [hconf]
      exact ⟨hcpos, le_trans h12 hcs⟩
    refine ⟨hfwd, ?_⟩
    intro hm
    cases hc : (matchesIgnoreList s2 profiles chunk).isMatch with
    | false => rfl
    | true => rw [hfwd hc] at hm; cases hm

theorem matchesIgnoreList_monotone_witness :
    ((0 : ℝ) ≤ 0.25 ∧ (0.25 : ℝ) ≤ 0.75 ∧ (0.75 : ℝ) ≤ 1)
    ∧ ((matchesIgnoreList 0.75 [("p", List.replicate 128 (1 : ℝ))] []).isMatch = true →
        (matchesIgnoreList 0.25 [("p", List.replicate 128 (1 : ℝ))] []).isMatch = true)
    ∧ ((matchesIgnoreList 0.25 [("p", List.replicate 128 (1 : ℝ))] []).isMatch = false →
        (matchesIgnoreList 0.75 [("p", List.replicate 128 (1 : ℝ))] []).isMatch = false) := by
  have h := matchesIgnoreList_monotone [] [("p", List.replicate 128 (1 : ℝ))] 0.25 0.75
    (by norm_num) (by norm_num) (by norm_num)
  exact ⟨⟨by norm_num, by norm_num, by norm_num⟩, h.1, h.2⟩

theorem sumsq_ofFn (f : Fin 128 → ℝ) :
    ((List.ofFn f).map (fun x => x ^ 2)).sum = ∑ i : Fin 128, f i ^ 2 := by
  rw [List.map_ofFn, List.sum_ofFn]
  rfl

theorem sig_length (samples : List (List ℝ)) :
    (extractVoiceSignature samples).length = 128 := by
  unfold extractVoiceSignature
  split <;> exact List.length_ofFn _

theorem sig_norm_of_pos (samples : List (List ℝ))
    (h : ∃ i, i < 128 ∧ averagedSignature samples i ≠ 0) :
    ((extractVoiceSignature samples).map (fun x => x ^ 2)).sum = 1 := by
  obtain ⟨i0, hi0, hne⟩ := h
  have hSpos : 0 < ∑ i ∈ Finset.range 128, averagedSignature samples i ^ 2 := by
    apply Finset.sum_pos'
    · intro i _
      positivity
    · exact ⟨i0, Finset.mem_range.mpr hi0, pow_two_pos_of_ne_zero hne⟩
  have hmag : signatureMagnitude samples
      = Real.sqrt (∑ i ∈ Finset.range 128, averagedSignature samples i ^ 2) := rfl
  have hmagpos : 0 < signatureMagnitude samples := by
    rw [hmag]
    exact Real.sqrt_pos.mpr hSpos
  unfold extractVoiceSignature
  rw [if_pos hmagpos, sumsq_ofFn]
  have hterm : ∀ i : Fin 128,
      (averagedSignature samples i.val / signatureMagnitude samples) ^ 2
        = averagedSignature samples i.val ^ 2
            / ∑ i ∈ Finset.range 128, averagedSignature samples i ^ 2 := by
    intro i
    rw [div_pow, hmag, Real.sq_sqrt (le_of_lt hSpos)]
  rw [Finset.sum_congr rfl (fun i _ => hterm i), ← Finset.sum_div]
  rw [show (∑ i : Fin 128, averagedSignature samples i.val ^ 2)
      = ∑ i ∈ Finset.range 128, averagedSignature samples i ^ 2 from
    Fin.sum_univ_eq_sum_range (fun i => averagedSignature samples i ^ 2) 128]
  exact div_self (ne_of_gt hSpos)

theorem sig_zero_of_allzero (samples : List (List ℝ))
    (h : ∀ i, i < 128 → averagedSignature samples i = 0) :
    extractVoiceSignature samples = List.ofFn (fun _ : Fin 128 => (0 : ℝ)) := by
  have hS : (∑ i ∈ Finset.range 128, averagedSignature samples i ^ 2) = 0 :=
    Finset.sum_eq_zero (fun i hi => by rw [h i (Finset.mem_range.mp hi)]; ring)
  have hmag : signatureMagnitude samples = 0 := by
    unfold signatureMagnitude
    rw [hS]
    exact Real.sqrt_zero
  unfold extractVoiceSignature
  rw [hmag, if_neg (lt_irrefl 0)]
  congr 1
  funext i
  exact h i.val i.isLt

/-- A stored signature is well-formed: 128 entries, and either exactly
unit-square-norm or identically zero. -/
def GoodSig (sig : List ℝ) : Prop :=
  sig.length = 128
  ∧ ((sig.map (fun x => x ^ 2)).sum = 1 ∨ sig = List.ofFn (fun _ : Fin 128 => (0 : ℝ)))

theorem goodSig_extract (samples : List (List ℝ)) :
    GoodSig (extractVoiceSignature samples) := by
  refine ⟨sig_length samples, ?_⟩
  by_cases h : ∃ i, i < 128 ∧ averagedSignature samples i ≠ 0
  · exact Or.inl (sig_norm_of_pos samples h)
  · push_neg at h
    exact Or.inr (sig_zero_of_allzero samples h)

theorem oadd_none_left (x : Option ℝ) : oadd none x = none := by
  cases x <;> rfl

theorem oadd_none_right (x : Option ℝ) : oadd x none = none := by
  cases x <;> rfl

theorem foldl_oadd_none : ∀ l : List (Option ℝ), l.foldl oadd none = none := by
  intro l
  induction l with
  | nil => rfl
  | cons x xs ih =>
      rw [List.foldl_cons, oadd_none_left]
      exact ih

theorem foldl_oadd_mem_none :
    ∀ (l : List (Option ℝ)) (acc : Option ℝ), none ∈ l → l.foldl oadd acc = none := by
  intro l
  induction l with
  | nil =>
      intro acc h
      simp at h
  | cons x xs ih =>
      intro acc h
      rw [List.foldl_cons]
      rcases List.mem_cons.mp h with h | h
      · rw [← h, oadd_none_right]
        exact foldl_oadd_none xs
      · exact ih _ h

theorem osumList_none {l : List (Option ℝ)} (h : none ∈ l) : osumList l = none :=
  foldl_oadd_mem_none l (some 0) h

theorem foldl_oadd_somes :
    ∀ (l : List ℝ) (acc : ℝ), (l.map some).foldl oadd (some acc) = some (acc + l.sum) := by
  intro l
  induction l with
  | nil =>
      intro acc
      simp
  | cons x xs ih =>
      intro acc
      rw [List.map_cons, List.foldl_cons,
        show oadd (some acc) (some x) = some (acc + x) from rfl, ih]
      congr 1
      rw [List.sum_cons]
      ring

theorem osumList_map_some (l : List ℝ) : osumList (l.map some) = some l.sum := by
  unfold osumList
  rw [foldl_oadd_somes l 0, zero_add]

theorem odivNat_pos (x : ℝ) {n : ℕ} (hn : n ≠ 0) : odivNat (some x) n = some (x / (n : ℝ)) := by
  unfold odivNat
  rw [if_neg hn]
  rfl

theorem odivNat_zero (x : Option ℝ) : odivNat x 0 = none := by
  unfold odivNat
  rw [if_pos rfl]

theorem odivNat_none (n : ℕ) : odivNat none n = none := by
  unfold odivNat
  split <;> rfl

theorem osqrt_of_nonneg {a : ℝ} (h : 0 ≤ a) : osqrt (some a) = some (Real.sqrt a) := by
  simp only [osqrt]
  rw [if_neg (not_lt.mpr h)]

theorem osqrt_none : osqrt none = none := rfl

theorem osqrt_some_imp {a v : ℝ} (h : osqrt (some a) = some v) : v = Real.sqrt a := by
  simp only [osqrt] at h
  by_cases hneg : a < 0
  · rw [if_pos hneg] at h
    cases h
  · rw [if_neg hneg] at h
    exact (Option.some_inj.mp h).symm

theorem omul_some_imp {x y : Option ℝ} {v : ℝ} (h : omul x y = some v) :
    ∃ a b, x = some a ∧ y = some b ∧ v = a * b := by
  cases x with
  | none => simp [omul] at h
  | some a =>
      cases y with
      | none => simp [omul] at h
      | some b =>
          refine ⟨a, b, rfl, rfl, ?_⟩
          exact (Option.some_inj.mp h).symm

theorem list_range_map_sum (f : ℕ → ℝ) :
    ∀ n : ℕ, ((List.range n).map f).sum = ∑ i ∈ Finset.range n, f i := by
  intro n
  induction n with
  | zero => simp
  | succ n ih =>
      rw [List.range_succ, List.map_append, List.sum_append, Finset.sum_range_succ, ih]
      simp

/-- The no-NaN regime for a decoded audio buffer: empty, or at least 32
samples so that every per-frame range is non-empty. -/
def WellFramed (data : List ℝ) : Prop := data.length = 0 ∨ 32 ≤ data.length

theorem frame_bounds (data : List ℝ) (h32 : 32 ≤ data.length) {i : ℕ} (hi : i < 32) :
    0 < min (i * (data.length / 32) + data.length / 32) data.length
      - i * (data.length / 32) := by
  have h1 : 1 ≤ data.length / 32 := (Nat.one_le_div_iff (by norm_num)).mpr h32
  have h2 : i * (data.length / 32) + data.length / 32 ≤ data.length := by
    have h3 : (i + 1) * (data.length / 32) ≤ 32 * (data.length / 32) :=
      Nat.mul_le_mul_right _ hi
    have h4 : 32 * (data.length / 32) ≤ data.length := by
      rw [Nat.mul_comm]
      exact Nat.div_mul_le_self _ _
    calc i * (data.length / 32) + data.length / 32
        = (i + 1) * (data.length / 32) := by ring
      _ ≤ 32 * (data.length / 32) := h3
      _ ≤ data.length := h4
  omega

theorem energyFeatureN_eq (data : List ℝ) (h32 : 32 ≤ data.length) {i : ℕ} (hi : i < 32) :
    energyFeatureN data i = some (energyFeature data i) := by
  have hpos := frame_bounds data h32 hi
  unfold energyFeatureN
  rw [odivNat_pos _ (Nat.pos_iff_ne_zero.mp hpos),
    osqrt_of_nonneg (div_nonneg (Finset.sum_nonneg fun j _ => sq_nonneg _) (Nat.cast_nonneg _))]
  rfl

theorem zcrFeatureN_eq (data : List ℝ) (h32 : 32 ≤ data.length) {i : ℕ} (hi : i < 32) :
    zcrFeatureN data i = some (zcrFeature data i) := by
  have hpos := frame_bounds data h32 hi
  unfold zcrFeatureN
  rw [odivNat_pos _ (Nat.pos_iff_ne_zero.mp hpos)]
  rfl

theorem statFeatureN_eq (data : List ℝ) (h32 : 32 ≤ data.length) {k : ℕ} (hk : k < 32) :
    statFeatureN data k = some (statFeature data k) := by
  unfold statFeatureN statFeature
  by_cases h0 : k = 0
  · rw [if_pos h0, if_pos h0]
  · rw [if_neg h0, if_neg h0]
    by_cases h1 : k = 1
    · rw [if_pos h1, if_pos h1]
    · rw [if_neg h1, if_neg h1]
      by_cases h2 : k = 2
      · rw [if_pos h2, if_pos h2]
      · rw [if_neg h2, if_neg h2]
        by_cases h3 : k = 3
        · rw [if_pos h3, if_pos h3]
        · rw [if_neg h3, if_neg h3]
          rw [energyFeatureN_eq data h32 (by omega), zcrFeatureN_eq data h32 hk]
          rfl

theorem featureAtN_eq (data : List ℝ) (h : WellFramed data) {i : ℕ} (hi : i < 128) :
    featureAtN data i = some (featureAt data i) := by
  rcases h with h0 | h32
  · unfold featureAtN featureAt
    rw [if_pos h0, if_pos h0]
  · have hne : ¬ data.length = 0 := by omega
    unfold featureAtN featureAt
    rw [if_neg hne, if_neg hne]
    by_cases hi32 : i < 32
    · rw [if_pos hi32, if_pos hi32]
      exact energyFeatureN_eq data h32 hi32
    · rw [if_neg hi32, if_neg hi32]
      by_cases hi64 : i < 64
      · rw [if_pos hi64, if_pos hi64]
        exact zcrFeatureN_eq data h32 (by omega)
      · rw [if_neg hi64, if_neg hi64]
        by_cases hi96 : i < 96
        · rw [if_pos hi96, if_pos hi96]
        · rw [if_neg hi96, if_neg hi96]
          exact statFeatureN_eq data h32 (by omega)

theorem energyFeatureN_some_imp {data : List ℝ} {i : ℕ} {v : ℝ}
    (h : energyFeatureN data i = some v) : v = energyFeature data i := by
  unfold energyFeatureN at h
  by_cases hn : min (i * (data.length / 32) + data.length / 32) data.length
      - i * (data.length / 32) = 0
  · rw [hn, odivNat_zero] at h
    cases h
  · rw [odivNat_pos _ hn] at h
    rw [osqrt_some_imp h]
    rfl

theorem zcrFeatureN_some_imp {data : List ℝ} {i : ℕ} {v : ℝ}
    (h : zcrFeatureN data i = some v) : v = zcrFeature data i := by
  unfold zcrFeatureN at h
  by_cases hn : min (i * (data.length / 32) + data.length / 32) data.length
      - i * (data.length / 32) = 0
  · rw [hn, odivNat_zero] at h
    cases h
  · rw [odivNat_pos _ hn] at h
    rw [← Option.some_inj.mp h]
    rfl

theorem statFeatureN_some_imp {data : List ℝ} {k : ℕ} {v : ℝ}
    (h : statFeatureN data k = some v) : v = statFeature data k := by
  unfold statFeatureN at h
  unfold statFeature
  by_cases h0 : k = 0
  · rw [if_pos h0] at h
    rw [if_pos h0]
    exact (Option.some_inj.mp h).symm
  · rw [if_neg h0] at h
    rw [if_neg h0]
    by_cases h1 : k = 1
    · rw [if_pos h1] at h
      rw [if_pos h1]
      exact (Option.some_inj.mp h).symm
    · rw [if_neg h1] at h
      rw [if_neg h1]
      by_cases h2 : k = 2
      · rw [if_pos h2] at h
        rw [if_pos h2]
        exact (Option.some_inj.mp h).symm
      · rw [if_neg h2] at h
        rw [if_neg h2]
        by_cases h3 : k = 3
        · rw [if_pos h3] at h
          rw [if_pos h3]
          exact (Option.some_inj.mp h).symm
        · rw [if_neg h3] at h
          rw [if_neg h3]
          obtain ⟨a, b, ha, hb, hv⟩ := omul_some_imp h
          rw [hv, energyFeatureN_some_imp ha, zcrFeatureN_some_imp hb]

theorem featureAtN_some_imp {data : List ℝ} {i : ℕ} {v : ℝ}
    (h : featureAtN data i = some v) : v = featureAt data i := by
  unfold featureAtN at h
  unfold featureAt
  by_cases hz : data.length = 0
  · rw [if_pos hz] at h
    rw [if_pos hz]
    exact (Option.some_inj.mp h).symm
  · rw [if_neg hz] at h
    rw [if_neg hz]
    by_cases h32 : i < 32
    · rw [if_pos h32] at h
      rw [if_pos h32]
      exact energyFeatureN_some_imp h
    · rw [if_neg h32] at h
      rw [if_neg h32]
      by_cases h64 : i < 64
      · rw [if_pos h64] at h
        rw [if_pos h64]
        exact zcrFeatureN_some_imp h
      · rw [if_neg h64] at h
        rw [if_neg h64]
        by_cases h96 : i < 96
        · rw [if_pos h96] at h
          rw [if_pos h96]
          exact (Option.some_inj.mp h).symm
        · rw [if_neg h96] at h
          rw [if_neg h96]
          exact statFeatureN_some_imp h

theorem avgN_some_imp {samples : List (List ℝ)} {i : ℕ} {v : ℝ}
    (h : averagedSignatureN samples i = some v) : v = averagedSignature samples i := by
  unfold averagedSignatureN at h
  by_cases hn : samples.length = 0
  · rw [hn, odivNat_zero] at h
    cases h
  · have hall : ∀ s ∈ samples, ∃ w, featureAtN s i = some w := by
      intro s hsm
      rcases he : featureAtN s i with _ | w
      · exfalso
        rw [osumList_none (List.mem_map.mpr ⟨s, hsm, he⟩), odivNat_none] at h
        cases h
      · exact ⟨w, rfl⟩
    have hmap : samples.map (fun s => featureAtN s i)
        = (samples.map (fun s => featureAt s i)).map some := by
      rw [List.map_map]
      apply List.map_congr_left
      intro s hsm
      obtain ⟨w, hw⟩ := hall s hsm
      rw [hw, featureAtN_some_imp hw]
      rfl
    rw [hmap, osumList_map_some, odivNat_pos _ hn] at h
    unfold averagedSignature
    exact (Option.some_inj.mp h).symm

theorem avgN_eq (samples : List (List ℝ)) (hs : samples ≠ [])
    (hw : ∀ s ∈ samples, WellFramed s) {i : ℕ} (hi : i < 128) :
    averagedSignatureN samples i = some (averagedSignature samples i) := by
  unfold averagedSignatureN averagedSignature
  have hmap : samples.map (fun s => featureAtN s i)
      = (samples.map (fun s => featureAt s i)).map some := by
    rw [List.map_map]
    exact List.map_congr_left fun s hsm => featureAtN_eq s (hw s hsm) hi
  rw [hmap, osumList_map_some, odivNat_pos _ (fun hz => hs (List.length_eq_zero.mp hz))]

theorem extractVoiceSignatureN_some {samples : List (List ℝ)} {m : ℝ}
    (h : signatureMagnitudeN samples = some m) :
    extractVoiceSignatureN samples
      = (if 0 < m then
          List.ofFn (fun i : Fin 128 => (averagedSignatureN samples i.val).map (fun a => a / m))
        else List.ofFn (fun i : Fin 128 => averagedSignatureN samples i.val)) := by
  unfold extractVoiceSignatureN
  rw [h]

theorem extractVoiceSignatureN_none {samples : List (List ℝ)}
    (h : signatureMagnitudeN samples = none) :
    extractVoiceSignatureN samples
      = List.ofFn (fun i : Fin 128 => averagedSignatureN samples i.val) := by
  unfold extractVoiceSignatureN
  rw [h]

theorem sigN_length (samples : List (List ℝ)) :
    (extractVoiceSignatureN samples).length = 128 := by
  rcases hmg : signatureMagnitudeN samples with _ | m
  · rw [extractVoiceSignatureN_none hmg]
    exact List.length_ofFn _
  · rw [extractVoiceSignatureN_some hmg]
    split
    · exact List.length_ofFn _
    · exact List.length_ofFn _

theorem magN_eq_of_avg (samples : List (List ℝ))
    (hall : ∀ i, i < 128 →
      averagedSignatureN samples i = some (averagedSignature samples i)) :
    signatureMagnitudeN samples = some (signatureMagnitude samples) := by
  unfold signatureMagnitudeN
  have hmap : (List.range 128).map
      (fun i => omul (averagedSignatureN samples i) (averagedSignatureN samples i))
      = ((List.range 128).map
          (fun i => averagedSignature samples i * averagedSignature samples i)).map some := by
    rw [List.map_map]
    apply List.map_congr_left
    intro i hi
    rw [hall i (List.mem_range.mp hi)]
    rfl
  rw [hmap, osumList_map_some, list_range_map_sum]
  rw [show (∑ i ∈ Finset.range 128, averagedSignature samples i * averagedSignature samples i)
      = ∑ i ∈ Finset.range 128, averagedSignature samples i ^ 2 from
    Finset.sum_congr rfl (fun i _ => (pow_two _).symm)]
  rw [osqrt_of_nonneg (Finset.sum_nonneg fun i _ => sq_nonneg _)]
  rfl

theorem sigN_eq_of_avg (samples : List (List ℝ))
    (hall : ∀ i, i < 128 →
      averagedSignatureN samples i = some (averagedSignature samples i)) :
    extractVoiceSignatureN samples = (extractVoiceSignature samples).map some := by
  rw [extractVoiceSignatureN_some (magN_eq_of_avg samples hall)]
  unfold extractVoiceSignature
  by_cases hm : 0 < signatureMagnitude samples
  · rw [if_pos hm, if_pos hm, List.map_ofFn]
    congr 1
    funext j
    rw [hall j.val j.isLt]
    rfl
  · rw [if_neg hm, if_neg hm, List.map_ofFn]
    congr 1
    funext j
    rw [hall j.val j.isLt]
    rfl

theorem osumSq_map_some (l : List ℝ) :
    osumSq (l.map some) = some ((l.map (fun x => x ^ 2)).sum) := by
  unfold osumSq
  have hmap : (l.map some).map (fun x => omul x x) = (l.map (fun x => x ^ 2)).map some := by
    rw [List.map_map, List.map_map]
    apply List.map_congr_left
    intro x _
    show omul (some x) (some x) = some (x ^ 2)
    rw [show omul (some x) (some x) = some (x * x) from rfl, pow_two]
  rw [hmap, osumList_map_some]

/-- A stored NaN-aware signature is well-formed: 128 entries, and either of
unit squared-norm, identically zero, or NaN-poisoned. -/
def GoodSigN (sig : List (Option ℝ)) : Prop :=
  sig.length = 128
  ∧ (osumSq sig = some 1 ∨ sig = List.ofFn (fun _ : Fin 128 => some (0 : ℝ))
    ∨ none ∈ sig)

theorem goodSigN_extract (samples : List (List ℝ)) :
    GoodSigN (extractVoiceSignatureN samples) := by
  refine ⟨sigN_length samples, ?_⟩
  by_cases hnan : ∃ i, i < 128 ∧ averagedSignatureN samples i = none
  · obtain ⟨i0, hi0, hn⟩ := hnan
    have hmagn : signatureMagnitudeN samples = none := by
      unfold signatureMagnitudeN
      rw [osumList_none (List.mem_map.mpr
        ⟨i0, List.mem_range.mpr hi0, by rw [hn]; rfl⟩)]
      rfl
    right; right
    rw [extractVoiceSignatureN_none hmagn]
    exact (List.mem_ofFn _ _).mpr ⟨⟨i0, hi0⟩, hn⟩
  · push_neg at hnan
    have hall : ∀ i, i < 128 →
        averagedSignatureN samples i = some (averagedSignature samples i) := by
      intro i hi
      rcases he : averagedSignatureN samples i with _ | w
      · exact absurd he (hnan i hi)
      · rw [avgN_some_imp he]
    rw [sigN_eq_of_avg samples hall]
    rcases (goodSig_extract samples).2 with h1 | h1
    · left
      rw [osumSq_map_some, h1]
    · right; left
      rw [h1, List.map_ofFn]
      rfl

theorem mem_mapSetN : ∀ (reg : List (String × StoredProfileN)) (id : String)
    (p : StoredProfileN) (pr : String × StoredProfileN),
    pr ∈ mapSetN reg id p → pr = (id, p) ∨ pr ∈ reg := by
  intro reg
  induction reg with
  | nil =>
      intro id p pr h
      simp only [mapSetN, List.mem_singleton] at h
      exact Or.inl h
  | cons kq rest ih =>
      intro id p pr h
      obtain ⟨k, q⟩ := kq
      simp only [mapSetN] at h
      by_cases hk : k = id
      · rw [if_pos hk] at h
        rcases List.mem_cons.mp h with h | h
        · exact Or.inl h
        · exact Or.inr (List.mem_cons.mpr (Or.inr h))
      · rw [if_neg hk] at h
        rcases List.mem_cons.mp h with h | h
        · exact Or.inr (List.mem_cons.mpr (Or.inl h))
        · rcases ih id p pr h with h2 | h2
          · exact Or.inl h2
          · exact Or.inr (List.mem_cons.mpr (Or.inr h2))

set_option maxRecDepth 4096 in
theorem regInvN_applyOp (op : RegOp) (reg : List (String × StoredProfileN))
    (h : ∀ pr ∈ reg, GoodSigN pr.2.voiceSignature) :
    ∀ pr ∈ applyOpN op reg, GoodSigN pr.2.voiceSignature := by
  intro pr hpr
  cases op with
  | add samples id name =>
      simp only [applyOpN] at hpr
      by_cases hs : samples = []
      · rw [addProfileN, if_pos hs] at hpr
        exact h pr hpr
      · rw [addProfileN, if_neg hs] at hpr
        rcases mem_mapSetN reg id _ pr hpr with h2 | h2
        · rw [h2]
          exact goodSigN_extract samples
        · exact h pr h2
  | remove id =>
      simp only [applyOpN] at hpr
      exact h pr (List.mem_filter.mp hpr).1
  | rename id nm =>
      simp only [applyOpN] at hpr
      obtain ⟨q, hq, he⟩ := List.mem_map.mp hpr
      by_cases hk : q.1 = id
      · rw [if_pos hk] at he
        rw [← he]
        exact h q hq
      · rw [if_neg hk] at he
        rw [← he]
        exact h q hq

theorem regInvN_foldl : ∀ (ops : List RegOp) (reg : List (String × StoredProfileN)),
    (∀ pr ∈ reg, GoodSigN pr.2.voiceSignature) →
    ∀ pr ∈ ops.foldl (fun reg op => applyOpN op reg) reg, GoodSigN pr.2.voiceSignature := by
  intro ops
  induction ops with
  | nil => intro reg h; simpa using h
  | cons op rest ih =>
      intro reg h
      exact ih (applyOpN op reg) (regInvN_applyOp op reg h)

theorem featureAtN_one_0 : featureAtN [(1 : ℝ)] 0 = none := by
  have h1 : featureAtN [(1 : ℝ)] 0 = energyFeatureN [(1 : ℝ)] 0 := by
    unfold featureAtN
    rw [if_neg (by norm_num), if_pos (by norm_num)]
  have h2 : min (0 * ([(1 : ℝ)].length / 32) + [(1 : ℝ)].length / 32) [(1 : ℝ)].length
      - 0 * ([(1 : ℝ)].length / 32) = 0 := by norm_num
  rw [h1]
  unfold energyFeatureN
  rw [h2, odivNat_zero, osqrt_none]

theorem featureAtN_one_96 : featureAtN [(1 : ℝ)] 96 = some 1 := by
  unfold featureAtN statFeatureN
  norm_num [listMean]

theorem avgN_one_0 : averagedSignatureN [[(1 : ℝ)]] 0 = none := by
  unfold averagedSignatureN
  rw [List.map_cons, List.map_nil, featureAtN_one_0,
    osumList_none (List.mem_singleton.mpr rfl), odivNat_none]

theorem avgN_one_96 : averagedSignatureN [[(1 : ℝ)]] 96 = some 1 := by
  unfold averagedSignatureN
  rw [List.map_cons, List.map_nil, featureAtN_one_96,
    show osumList [some (1 : ℝ)] = some (0 + 1) from rfl,
    odivNat_pos _ (by simp : ([[(1 : ℝ)]] : List (List ℝ)).length ≠ 0)]
  norm_num

theorem magN_one : signatureMagnitudeN [[(1 : ℝ)]] = none := by
  have hmem : none ∈ (List.range 128).map
      (fun i => omul (averagedSignatureN [[(1 : ℝ)]] i) (averagedSignatureN [[(1 : ℝ)]] i)) := by
    refine List.mem_map.mpr ⟨0, List.mem_range.mpr (by norm_num), ?_⟩
    rw [avgN_one_0]
    rfl
  unfold signatureMagnitudeN
  rw [osumList_none hmem, osqrt_none]

theorem sigN_one : extractVoiceSignatureN [[(1 : ℝ)]]
    = List.ofFn (fun i : Fin 128 => averagedSignatureN [[(1 : ℝ)]] i.val) :=
  extractVoiceSignatureN_none magN_one

theorem featureAtN_nil (i : ℕ) : featureAtN [] i = some 0 := by
  simp [featureAtN]

theorem avgN_nil (i : ℕ) : averagedSignatureN [[]] i = some 0 := by
  unfold averagedSignatureN
  rw [List.map_cons, List.map_nil, featureAtN_nil,
    show osumList [some (0 : ℝ)] = some (0 + 0) from rfl,
    odivNat_pos _ (by simp : ([[]] : List (List ℝ)).length ≠ 0)]
  norm_num

theorem magN_nil : signatureMagnitudeN [[]] = some 0 := by
  unfold signatureMagnitudeN
  have hmap : (List.range 128).map
      (fun i => omul (averagedSignatureN [[]] i) (averagedSignatureN [[]] i))
      = ((List.range 128).map (fun _ => (0 : ℝ))).map some := by
    rw [List.map_map]
    apply List.map_congr_left
    intro i _
    rw [avgN_nil]
    show some ((0 : ℝ) * 0) = some 0
    norm_num
  rw [hmap, osumList_map_some,
    show ((List.range 128).map (fun _ => (0 : ℝ))).sum = 0 from by
      rw [list_range_map_sum]; simp,
    osqrt_of_nonneg (le_refl 0), Real.sqrt_zero]

theorem sigN_nil : extractVoiceSignatureN [[]]
    = List.ofFn (fun _ : Fin 128 => some (0 : ℝ)) := by
  rw [extractVoiceSignatureN_some magN_nil, if_neg (lt_irrefl 0)]
  congr 1
  funext i
  exact avgN_nil i.val

theorem osumSq_zeros : osumSq (List.ofFn (fun _ : Fin 128 => some (0 : ℝ))) = some 0 := by
  rw [show List.ofFn (fun _ : Fin 128 => some (0 : ℝ))
      = (List.ofFn (fun _ : Fin 128 => (0 : ℝ))).map some from by rw [List.map_ofFn]; rfl,
    osumSq_map_some,
    show ((List.ofFn (fun _ : Fin 128 => (0 : ℝ))).map (fun x => x ^ 2)).sum = 0 from by
      rw [List.map_ofFn, List.sum_ofFn]; simp]

theorem addProfileN_nil :
    addProfileN [[]] "p" none []
      = .ok [("p", ⟨"Profile p", extractVoiceSignatureN [[]]⟩)] := by
  rw [addProfileN, if_neg (by simp)]
  rfl

theorem runOpsN_single_add :
    runOpsN [RegOp.add [[]] "p" none]
      = [("p", ⟨"Profile p", extractVoiceSignatureN [[]]⟩)] := by
  simp only [runOpsN, List.foldl_cons, List.foldl_nil, applyOpN, addProfileN_nil]

/-- Claim C6 as amended: (i) for every non-empty list of training samples,
each of which decodes to 0 or at least 32 floats (so no per-frame division is
0/0), the stored signature has 128 entries, has squared L2 norm exactly 1
whenever the averaged feature vector is nonzero, and is the zero vector
otherwise; (ii) for a sample of 1–31 floats the frame size floors to 0 and
the stored signature is NaN-poisoned — it has a NaN entry and a nonzero
finite entry, so it is neither unit-norm nor zero, and its squared norm is
NaN; (iii) after any sequence of registry operations, every stored profile's
signature has 128 entries and is unit-norm, the zero vector, or contains a
NaN. -/
theorem voiceSignature_unit_norm :
    (∀ samples : List (List ℝ), samples ≠ [] →
      (∀ s ∈ samples, s.length = 0 ∨ 32 ≤ s.length) →
      (extractVoiceSignatureN samples).length = 128
      ∧ ((∃ i, i < 128 ∧ averagedSignature samples i ≠ 0) →
          osumSq (extractVoiceSignatureN samples) = some 1)
      ∧ ((∀ i, i < 128 → averagedSignature samples i = 0) →
          extractVoiceSignatureN samples = List.ofFn (fun _ : Fin 128 => some (0 : ℝ))))
    ∧ (none ∈ extractVoiceSignatureN [[(1 : ℝ)]]
      ∧ some 1 ∈ extractVoiceSignatureN [[(1 : ℝ)]]
      ∧ osumSq (extractVoiceSignatureN [[(1 : ℝ)]]) = none)
    ∧ (∀ ops : List RegOp, ∀ pr ∈ runOpsN ops,
        pr.2.voiceSignature.length = 128
        ∧ (osumSq pr.2.voiceSignature = some 1
          ∨ pr.2.voiceSignature = List.ofFn (fun _ : Fin 128 => some (0 : ℝ))
          ∨ none ∈ pr.2.voiceSignature)) := by
  refine ⟨?_, ⟨?_, ?_, ?_⟩, ?_⟩
  · intro samples hs hw
    have hall : ∀ i, i < 128 →
        averagedSignatureN samples i = some (averagedSignature samples i) :=
      fun i hi => avgN_eq samples hs (fun s hsm => hw s hsm) hi
    refine ⟨sigN_length samples, ?_, ?_⟩
    · intro hex
      rw [sigN_eq_of_avg samples hall, osumSq_map_some, sig_norm_of_pos samples hex]
    · intro hz
      rw [sigN_eq_of_avg samples hall, sig_zero_of_allzero samples hz, List.map_ofFn]
      rfl
  · rw [sigN_one]
    exact (List.mem_ofFn _ _).mpr ⟨⟨0, by norm_num⟩, avgN_one_0⟩
  · rw [sigN_one]
    exact (List.mem_ofFn _ _).mpr ⟨⟨96, by norm_num⟩, avgN_one_96⟩
  · have hn : none ∈ extractVoiceSignatureN [[(1 : ℝ)]] := by
      rw [sigN_one]
      exact (List.mem_ofFn _ _).mpr ⟨⟨0, by norm_num⟩, avgN_one_0⟩
    exact osumList_none (List.mem_map.mpr ⟨none, hn, rfl⟩)
  · intro ops pr hpr
    exact regInvN_foldl ops [] (by simp) pr hpr

theorem avg_ones32_96 : averagedSignature [List.replicate 32 (1 : ℝ)] 96 = 1 := by
  have hlen : (List.replicate 32 (1 : ℝ)).length = 32 := by simp
  have hfeat : featureAt (List.replicate 32 (1 : ℝ)) 96 = 1 := by
    unfold featureAt
    rw [hlen]
    norm_num
    unfold statFeature
    norm_num [listMean, List.sum_replicate, hlen]
  unfold averagedSignature
  rw [List.map_cons, List.map_nil, List.sum_cons, List.sum_nil, hfeat]
  norm_num [List.length_singleton]

set_option maxRecDepth 4096 in
theorem voiceSignature_unit_norm_witness :
    (([List.replicate 32 (1 : ℝ)] : List (List ℝ)) ≠ []
      ∧ (∀ s ∈ ([List.replicate 32 (1 : ℝ)] : List (List ℝ)), s.length = 0 ∨ 32 ≤ s.length)
      ∧ 96 < 128 ∧ averagedSignature [List.replicate 32 (1 : ℝ)] 96 ≠ 0)
    ∧ osumSq (extractVoiceSignatureN [List.replicate 32 (1 : ℝ)]) = some 1
    ∧ (("p", (⟨"Profile p", extractVoiceSignatureN [[]]⟩ : StoredProfileN))
        ∈ runOpsN [RegOp.add [[]] "p" none]
      ∧ (osumSq (extractVoiceSignatureN [[]]) = some 1
        ∨ extractVoiceSignatureN [[]] = List.ofFn (fun _ : Fin 128 => some (0 : ℝ))
        ∨ none ∈ extractVoiceSignatureN [[]])) := by
  have hne : ([List.replicate 32 (1 : ℝ)] : List (List ℝ)) ≠ [] := by simp
  have hw : ∀ s ∈ ([List.replicate 32 (1 : ℝ)] : List (List ℝ)),
      s.length = 0 ∨ 32 ≤ s.length := by
    intro s hsm
    rw [List.mem_singleton.mp hsm]
    right
    simp
  have havg : averagedSignature [List.replicate 32 (1 : ℝ)] 96 ≠ 0 := by
    rw [avg_ones32_96]
    norm_num
  have hmem : ("p", (⟨"Profile p", extractVoiceSignatureN [[]]⟩ : StoredProfileN))
      ∈ runOpsN [RegOp.add [[]] "p" none] := by
    rw [runOpsN_single_add]
    exact List.mem_singleton.mpr rfl
  exact ⟨⟨hne, hw, by norm_num, havg⟩,
    (voiceSignature_unit_norm.1 [List.replicate 32 (1 : ℝ)] hne hw).2.1
      ⟨96, by norm_num, havg⟩,
    hmem, (voiceSignature_unit_norm.2.2 [RegOp.add [[]] "p" none] _ hmem).2⟩

/-- Claim C6, counterexample: a single training sample that decodes to an
empty float array is accepted by `addProfile`, yields the all-zero averaged
features (normalization is skipped), and the stored signature has squared L2
norm 0, not 1. -/
theorem signature_not_unit_norm_counterexample :
    (([[]] : List (List ℝ)) ≠ [])
    ∧ addProfileN [[]] "p" none []
        = .ok [("p", ⟨"Profile p", extractVoiceSignatureN [[]]⟩)]
    ∧ osumSq (extractVoiceSignatureN [[]]) = some 0
    ∧ ¬ osumSq (extractVoiceSignatureN [[]]) = some 1 := by
  have hsum : osumSq (extractVoiceSignatureN [[]]) = some 0 := by
    rw [sigN_nil]
    exact osumSq_zeros
  refine ⟨by simp, addProfileN_nil, hsum, ?_⟩
  rw [hsum]
  simp

/-- Claim C8, code behavior at the failing input: adding a profile under an id
that already exists does not fail with `InvalidInput`; the existing profile is
silently overwritten (here the stored name changes from "A" to "B"). -/
theorem addProfile_duplicate_overwrites :
    addProfile [[]] "p" (some "A") []
        = .ok [("p", ⟨"A", extractVoiceSignature [[]]⟩)]
    ∧ addProfile [[], []] "p" (some "B") [("p", ⟨"A", extractVoiceSignature [[]]⟩)]
        = .ok [("p", ⟨"B", extractVoiceSignature [[], []]⟩)] := by
  constructor
  · rw [addProfile, if_neg (by simp)]
    rfl
  · rw [addProfile, if_neg (by simp)]
    simp [mapSet]

end

end VP

end SoundAware

